import Mathlib

/-!
# service_breaker: a circuit breaker (breaker.go, metrics.go, option.go, trip.go)

Shallow embedding of the Go package `service_breaker`.

Conventions of the embedding

* `uint64` fields are natural numbers; every increment is taken modulo `2^64`.
* `time.Time` is an integer number of nanoseconds counted from the zero time
  (so `IsZero` is `= 0`, `Add` is `+`, `Before` is `<`); `time.Duration` is an
  integer number of nanoseconds.
* Every `time.Now()` of the source is an explicit argument, one per reading.
* The two callables the breaker invokes but does not own, the wrapped operation
  `exec` and the `stateChangeHook`, are recorded in the field `trace` of the
  breaker: one event per invocation, in program order.  The wrapped operation
  is given by its outcome (a normal return or a panic).
* The functions `Call`, `OpenBreaker` and `CloseBreaker` describe executions in
  which every public operation completes before the next one starts.  Callers
  that run `Call` concurrently are described by interleavings of the atomic
  steps of `Call` (`Atomic`, `interleave`): the two critical sections of the
  mutex and the unprotected lines between them.
-/

namespace service_breaker

/-! ## Basic types -/

/-- Two to the power 64, the number of `uint64` values. -/
def U64 : Nat := 2 ^ 64

/-- Increment of a `uint64` variable (`x++`). -/
def inc64 (x : Nat) : Nat := (x + 1) % U64

/-- Modelled from the spec: the `State` enumeration, whose declaration
(`type State`, `StateClosed`, `StateOpen`, `StateHalfOpen`) is not among the
source files.  The spec gives the three values and says the initial state, the
zero value that `new(ServiceBreaker)` yields, is `Closed`. -/
inductive State where
  | StateClosed
  | StateOpen
  | StateHalfOpen
  deriving DecidableEq, Repr

open State

/-- Instants (`time.Time`): nanoseconds from the zero time. -/
abbrev Time := Int

/-- Lengths of time (`time.Duration`): nanoseconds. -/
abbrev Duration := Int

/-- Values carried by an `interface{}` that is not nil. -/
abbrev Value := Nat

/-- Error values that are not nil: the two errors of the package (breaker.go
lines 10-13) and any other error value, which only the wrapped operation can
produce. -/
inductive Err where
  | ErrStateOpen
  | ErrTooManyCalls
  | other (id : Nat)
  deriving DecidableEq, Repr

open Err

/-- One invocation of a callable that lives outside the breaker. -/
inductive Event where
  | exec
  | hook (name : String) (fromState toState : State)
  deriving DecidableEq, Repr

/-! ## metrics.go -/

/-- The window statistics (metrics.go lines 8-16). -/
structure Metrics where
  WindowBatch : Nat
  WindowTimeStart : Time
  CountAll : Nat
  CountSuccess : Nat
  CountFail : Nat
  ConsecutiveSuccess : Nat
  ConsecutiveFail : Nat
  deriving DecidableEq, Repr

namespace Metrics

/-- metrics.go lines 18-20. -/
def NewBatch (m : Metrics) : Metrics :=
  { m with WindowBatch := inc64 m.WindowBatch }

/-- metrics.go lines 22-24. -/
def OnCall (m : Metrics) : Metrics :=
  { m with CountAll := inc64 m.CountAll }

/-- metrics.go lines 26-31. -/
def OnSuccess (m : Metrics) : Metrics :=
  { m with CountSuccess := inc64 m.CountSuccess
           ConsecutiveSuccess := inc64 m.ConsecutiveSuccess
           ConsecutiveFail := 0 }

/-- metrics.go lines 33-37. -/
def OnFail (m : Metrics) : Metrics :=
  { m with CountFail := inc64 m.CountFail
           ConsecutiveFail := inc64 m.ConsecutiveFail
           ConsecutiveSuccess := 0 }

/-- metrics.go lines 39-45. -/
def OnReset (m : Metrics) : Metrics :=
  { m with CountAll := 0
           CountSuccess := 0
           CountFail := 0
           ConsecutiveSuccess := 0
           ConsecutiveFail := 0 }

end Metrics

/-! ## trip.go -/

/-- A `float64` threshold, as far as `>=` can tell values apart: not a number,
the two infinities, or a finite value (given exactly, as a rational). -/
inductive F64 where
  | nan
  | negInf
  | posInf
  | fin (q : ℚ)
  deriving DecidableEq

/-- Rounding of the positive quotient `n / d` to the nearest `float64`
(53 significant bits, ties to even).  For `d = 1` this is the conversion
`float64(n)` of a `uint64`; for two converted counters it is their `float64`
division.  The quotients that occur lie between `2^-64` and `2^64`, inside the
normal range of the format. -/
def roundF64 (n d : Nat) : ℚ :=
  if n = 0 ∨ d = 0 then 0 else
    let la := Nat.log2 n
    let lb := Nat.log2 d
    -- e is the exponent of the quotient: 2^e <= n/d < 2^(e+1)
    let e : Int := if d * 2 ^ la ≤ n * 2 ^ lb then (la : Int) - lb else (la : Int) - lb - 1
    -- scale by 2^(52 - e), so that the quotient lies in [2^52, 2^53)
    let t : Int := 52 - e
    let num : Nat := n * 2 ^ t.toNat
    let den : Nat := d * 2 ^ (-t).toNat
    let q := num / den
    let r := num % den
    let m := if den < 2 * r ∨ (2 * r = den ∧ q % 2 = 1) then q + 1 else q
    (m : ℚ) * (2 : ℚ) ^ (-t)

/-- Conversion `float64(x)` of a counter; the result is an integer. -/
def toF64 (x : Nat) : Nat := (roundF64 x 1).floor.toNat

/-- The comparison `currRate >= rate` of a finite `currRate`. -/
def F64.le (rate : F64) (currRate : ℚ) : Bool :=
  match rate with
  | .nan => false
  | .negInf => true
  | .posInf => false
  | .fin q => decide (q ≤ currRate)

/-- The type `TripStrategyFunc` (trip.go line 4). -/
abbrev TripStrategyFunc := Metrics → Bool

/-- trip.go lines 7-11. -/
def ConsecutiveFailTripFunc (threshold : Nat) : TripStrategyFunc :=
  fun m => decide (m.ConsecutiveFail ≥ threshold)

/-- trip.go lines 14-18. -/
def FailTripFunc (threshold : Nat) : TripStrategyFunc :=
  fun m => decide (m.CountFail ≥ threshold)

/-- trip.go lines 21-30. -/
def FailRateTripFunc (rate : F64) (minCalls : Nat) : TripStrategyFunc :=
  fun m =>
    let currRate : ℚ :=
      if m.CountAll ≠ 0 then roundF64 (toF64 m.CountFail) (toF64 m.CountAll) else 0
    decide (m.CountAll ≥ minCalls) && rate.le currRate

/-- trip.go lines 32-36: the constants `iota + 1`. -/
def ConsecutiveFailTrip : Nat := 1

/-- Second strategy constant. -/
def FailTrip : Nat := 2

/-- Third strategy constant. -/
def FailRateTrip : Nat := 3

/-! ## option.go -/

/-- option.go lines 7-13. -/
structure TripStrategyOption where
  Strategy : Nat
  ConsecutiveFailThreshold : Nat
  FailThreshold : Nat
  FailRate : F64
  MinCall : Nat

/-- option.go lines 15-22, the struct `Option` of the source (the name is taken
in Lean).  `StateChangeHook` says whether the hook is non-nil. -/
structure BreakerOption where
  Name : String
  WindowInterval : Duration
  HalfMaxCalls : Nat
  SleepTimeout : Duration
  StateChangeHook : Bool
  TripStrategy : TripStrategyOption

/-- trip.go lines 39-50. -/
def ChooseTrip (op : TripStrategyOption) : TripStrategyFunc :=
  if op.Strategy = ConsecutiveFailTrip then ConsecutiveFailTripFunc op.ConsecutiveFailThreshold
  else if op.Strategy = FailTrip then FailTripFunc op.FailThreshold
  else FailRateTripFunc op.FailRate op.MinCall

/-! ## breaker.go -/

/-- The struct `ServiceBreaker` (breaker.go lines 16-27), without the mutex.
`stateChangeHook` says whether the hook is non-nil.  `trace` is not a field of
the source: it lists, oldest first, the invocations of the hook and of the
wrapped operation made so far. -/
structure ServiceBreaker where
  name : String
  state : State
  windowInterval : Duration
  metrics : Metrics
  tripStrategyFunc : TripStrategyFunc
  halfMaxCalls : Nat
  sleepTimeout : Duration
  stateChangeHook : Bool
  stateOpenTime : Time
  trace : List Event

namespace ServiceBreaker

/-- breaker.go lines 177-193. -/
def nextWindow (breaker : ServiceBreaker) (now : Time) : ServiceBreaker :=
  let m := breaker.metrics.NewBatch.OnReset
  match breaker.state with
  | StateClosed =>
    if breaker.windowInterval = 0 then
      { breaker with metrics := { m with WindowTimeStart := 0 } }
    else
      { breaker with metrics := { m with WindowTimeStart := now + breaker.windowInterval } }
  | StateOpen =>
    { breaker with metrics := { m with WindowTimeStart := now + breaker.sleepTimeout } }
  | StateHalfOpen =>
    { breaker with metrics := { m with WindowTimeStart := 0 } }

/-- breaker.go lines 158-174.  `now` is the argument of the source, `clock` is
the reading of `time.Now()` at line 165. -/
def changeState (breaker : ServiceBreaker) (state : State) (now clock : Time) :
    ServiceBreaker :=
  if breaker.state = state then breaker
  else
    let prevState := breaker.state
    let b1 := { breaker with state := state }
    let b2 := b1.nextWindow clock
    let b3 := if state = StateOpen then { b2 with stateOpenTime := now } else b2
    if b3.stateChangeHook then
      { b3 with trace := b3.trace ++ [Event.hook b3.name prevState state] }
    else b3

/-- breaker.go lines 92-120.  `now` is the reading of line 95, `clock` the one
inside `changeState`.  The second component is the returned error. -/
def beforeCall (breaker : ServiceBreaker) (now clock : Time) :
    ServiceBreaker × Option Err :=
  match breaker.state with
  | StateOpen =>
    if breaker.stateOpenTime + breaker.sleepTimeout < now then
      (breaker.changeState StateHalfOpen now clock, none)
    else
      (breaker, some ErrStateOpen)
  | StateHalfOpen =>
    if breaker.metrics.CountAll ≥ breaker.halfMaxCalls then
      (breaker, some ErrTooManyCalls)
    else
      (breaker, none)
  | StateClosed =>
    if breaker.metrics.WindowTimeStart ≠ 0 ∧ breaker.metrics.WindowTimeStart < now then
      (breaker.nextWindow now, none)
    else
      (breaker, none)

/-- breaker.go lines 136-141. -/
def onSuccess (breaker : ServiceBreaker) (now clock : Time) : ServiceBreaker :=
  let b1 := { breaker with metrics := breaker.metrics.OnSuccess }
  if b1.state = StateHalfOpen ∧ b1.metrics.ConsecutiveSuccess ≥ b1.halfMaxCalls then
    b1.changeState StateClosed now clock
  else b1

/-- breaker.go lines 144-155. -/
def onFail (breaker : ServiceBreaker) (now clock : Time) : ServiceBreaker :=
  let b1 := { breaker with metrics := breaker.metrics.OnFail }
  match b1.state with
  | StateClosed =>
    if b1.tripStrategyFunc b1.metrics then b1.changeState StateOpen now clock else b1
  | StateHalfOpen => b1.changeState StateOpen now clock
  | StateOpen => b1

/-- breaker.go lines 123-133.  `now` is the reading of line 128 or 130. -/
def afterCall (breaker : ServiceBreaker) (success : Bool) (now clock : Time) :
    ServiceBreaker :=
  if success then breaker.onSuccess now clock else breaker.onFail now clock

end ServiceBreaker

/-- What the wrapped operation does when it is invoked: it returns a result
(nil is `none`) and an error (nil is `none`), or it panics.  The value of a
panic is what `recover()` yields, which is never nil for a running panic
(`panic(nil)` is raised as a `*runtime.PanicNilError`). -/
inductive Outcome where
  | ret (result : Option Value) (err : Option Err)
  | panic (v : Value)
  deriving DecidableEq, Repr

/-- How `Call` ends: it returns a pair, or the panic goes on to its caller. -/
inductive CallResult where
  | ret (result : Option Value) (err : Option Err)
  | panicked (v : Value)
  deriving DecidableEq, Repr

/-- The readings of `time.Now()` that one `Call` can make, in program order:
in `beforeCall` (line 95), in a `changeState` reached from `beforeCall`
(line 165), in `afterCall` (line 128 or 130) and in a `changeState` reached
from `afterCall` (line 165). -/
structure CallTimes where
  tBefore : Time
  tBeforeCS : Time
  tAfter : Time
  tAfterCS : Time
  deriving DecidableEq, Repr

/-- The wrapped operation counts as a success when it returns a nil error
(line 77); a panic is accounted with `afterCall(false)` (line 67). -/
def Outcome.success : Outcome → Bool
  | .ret _ err => err.isNone
  | .panic _ => false

/-- What `Call` hands to its caller once the operation has run: the pair of
line 88, or the panic raised again at line 68. -/
def Outcome.toResult : Outcome → CallResult
  | .ret result err => .ret result err
  | .panic v => .panicked v

namespace ServiceBreaker

/-- breaker.go lines 30-43.  `now` is the reading of `time.Now()` at line 41.
The zero value of `State` is `StateClosed`. -/
def NewServiceBreaker (op : BreakerOption) (now : Time) : Except String ServiceBreaker :=
  if op.WindowInterval ≤ 0 ∨ op.HalfMaxCalls = 0 ∨ op.SleepTimeout ≤ 0 then
    .error "incomplete options"
  else
    let breaker : ServiceBreaker :=
      { name := op.Name
        state := StateClosed
        windowInterval := op.WindowInterval
        metrics := ⟨0, 0, 0, 0, 0, 0, 0⟩
        tripStrategyFunc := ChooseTrip op.TripStrategy
        halfMaxCalls := op.HalfMaxCalls
        sleepTimeout := op.SleepTimeout
        stateChangeHook := op.StateChangeHook
        stateOpenTime := 0
        trace := [] }
    .ok (breaker.nextWindow now)

/-- breaker.go lines 73-74: the attempt is counted and the wrapped operation
is invoked. -/
def invoke (breaker : ServiceBreaker) : ServiceBreaker :=
  { breaker with
    metrics := breaker.metrics.OnCall
    trace := breaker.trace ++ [Event.exec] }

/-- breaker.go lines 46-89, logging left out.  `exec` is the outcome of the
wrapped operation if it gets invoked.  A rejected call returns at line 60.  An
admitted call counts the attempt and invokes the operation; when the operation
returns, lines 77 and 88 account the outcome and return the pair; when it
panics, the deferred function of lines 64-70 accounts a failure and raises the
panic again. -/
def Call (breaker : ServiceBreaker) (ts : CallTimes) (exec : Outcome) :
    ServiceBreaker × CallResult :=
  match breaker.beforeCall ts.tBefore ts.tBeforeCS with
  | (b1, some err) => (b1, .ret none (some err))
  | (b1, none) =>
    (b1.invoke.afterCall exec.success ts.tAfter ts.tAfterCS, exec.toResult)

/-- breaker.go lines 195-203.  `now` is the reading of line 202, `clock` the
one inside `changeState`. -/
def OpenBreaker (breaker : ServiceBreaker) (now clock : Time) : ServiceBreaker :=
  if breaker.state = StateOpen then breaker
  else breaker.changeState StateOpen now clock

/-- breaker.go lines 205-213. -/
def CloseBreaker (breaker : ServiceBreaker) (now clock : Time) : ServiceBreaker :=
  if breaker.state = StateClosed then breaker
  else breaker.changeState StateClosed now clock

end ServiceBreaker

open ServiceBreaker

/-! ## Sequential executions -/

/-- One call of a sequence: the clock readings it makes and what the wrapped
operation does if it is invoked. -/
abbrev CallInput := CallTimes × Outcome

/-- The breaker after a sequence of calls, each completing before the next
starts. -/
def calls (b : ServiceBreaker) : List CallInput → ServiceBreaker
  | [] => b
  | c :: cs => calls (b.Call c.1 c.2).1 cs

/-- What the calls of a sequence hand to their callers, in order. -/
def callResults (b : ServiceBreaker) : List CallInput → List CallResult
  | [] => []
  | c :: cs => (b.Call c.1 c.2).2 :: callResults (b.Call c.1 c.2).1 cs

/-- Number of calls of a sequence whose operation fails (error or panic). -/
def failures (cs : List CallInput) : Nat :=
  cs.countP (fun c => !c.2.success)

/-- A public operation that changes the breaker, with its inputs. -/
inductive Op where
  | call (ts : CallTimes) (exec : Outcome)
  | openBreaker (now clock : Time)
  | closeBreaker (now clock : Time)

/-- The breaker after one public operation. -/
def step (b : ServiceBreaker) : Op → ServiceBreaker
  | .call ts exec => (b.Call ts exec).1
  | .openBreaker now clock => b.OpenBreaker now clock
  | .closeBreaker now clock => b.CloseBreaker now clock

/-- The breaker after a sequence of public operations. -/
def run (b : ServiceBreaker) : List Op → ServiceBreaker
  | [] => b
  | op :: ops => run (step b op) ops

/-- Whether the operation is a call that invokes the wrapped operation while
the breaker is half-open: `beforeCall` admits it and leaves the state
`StateHalfOpen`, the state in which line 74 then runs. -/
def invokesHalfOpen (b : ServiceBreaker) : Op → Bool
  | .call ts _ =>
    decide ((b.beforeCall ts.tBefore ts.tBeforeCS).2 = none ∧
      (b.beforeCall ts.tBefore ts.tBeforeCS).1.state = StateHalfOpen)
  | _ => false

/-- Bookkeeping for half-open episodes.  `g` is the number of invocations of
the wrapped operation in the most recent episode.  An invocation made while
half-open belongs to the running episode when the breaker was half-open
already before the call, and opens a new episode (count 1) when this call is
the one that moved the breaker into `StateHalfOpen`. -/
def episodeStep (b : ServiceBreaker) (g : Nat) (op : Op) : Nat :=
  if invokesHalfOpen b op then
    if b.state = StateHalfOpen then g + 1 else 1
  else g

/-- Invocations of the wrapped operation in the most recent half-open episode
after a sequence of public operations, starting from the count `g`. -/
def episodeCalls (b : ServiceBreaker) (g : Nat) : List Op → Nat
  | [] => g
  | op :: ops => episodeCalls (step b op) (episodeStep b g op) ops

/-! ## Test fixtures (breaker_test.go) -/

/-- One second, in nanoseconds. -/
def second : Duration := 1000000000

/-- The options of `initBreaker` (breaker_test.go lines 12-28). -/
def initOption : BreakerOption :=
  { Name := "breaker1"
    WindowInterval := 5 * second
    HalfMaxCalls := 3
    SleepTimeout := 6 * second
    StateChangeHook := true
    TripStrategy :=
      { Strategy := FailTrip
        ConsecutiveFailThreshold := 0
        FailThreshold := 3
        FailRate := .fin 0
        MinCall := 0 } }

/-- The breaker `NewServiceBreaker initOption now` returns. -/
def initBreaker (now : Time) : ServiceBreaker :=
  { name := "breaker1"
    state := StateClosed
    windowInterval := 5 * second
    metrics := ⟨1, now + 5 * second, 0, 0, 0, 0, 0⟩
    tripStrategyFunc := FailTripFunc 3
    halfMaxCalls := 3
    sleepTimeout := 6 * second
    stateChangeHook := true
    stateOpenTime := 0
    trace := [] }

/-- A call all of whose clock readings are `t`. -/
def callAt (t : Time) (exec : Outcome) : CallInput := (⟨t, t, t, t⟩, exec)

/-- An operation that succeeds with a nil result (breaker_test.go line 39). -/
def okExec : Outcome := .ret none none

/-- An operation that fails (breaker_test.go line 42). -/
def errExec : Outcome := .ret none (some (Err.other 0))


/-- A half-open breaker in the middle of an episode: the test breaker with two
trial calls done, both successful. -/
def halfOpenBreaker : ServiceBreaker :=
  { initBreaker 0 with
    state := StateHalfOpen
    metrics := ⟨3, 0, 2, 2, 0, 2, 0⟩ }

/-- A half-open breaker whose trial budget is used up: three calls admitted,
two of them accounted. -/
def fullHalfOpenBreaker : ServiceBreaker :=
  { initBreaker 0 with
    state := StateHalfOpen
    metrics := ⟨3, 0, 3, 2, 0, 2, 0⟩ }

/-- The test breaker opened by hand at time 100. -/
def openedBreaker : ServiceBreaker := (initBreaker 0).OpenBreaker 100 100

/-- No call of the sequence makes `beforeCall` roll the closed window of `b`:
either no expiry is set, or the clock reading of `beforeCall` is not after the
expiry `WindowTimeStart`. -/
def inWindow (b : ServiceBreaker) (cs : List CallInput) : Bool :=
  cs.all fun c =>
    !(decide (b.metrics.WindowTimeStart ≠ 0) && decide (b.metrics.WindowTimeStart < c.1.tBefore))

/-- The call returned and its error is nil: it was admitted and its operation
succeeded. -/
def CallResult.nilError : CallResult → Bool
  | .ret _ none => true
  | _ => false

/-- The test breaker, opened by hand at time 100, after the call that enters
half-open (made one nanosecond after the timeout, the operation succeeding). -/
def enteredBreaker : ServiceBreaker :=
  (openedBreaker.Call ⟨101 + 6 * second, 101 + 6 * second, 102 + 6 * second, 0⟩ okExec).1

/-- The invariant of a sequential execution that ties the counters of a
half-open breaker to `g`, the number of invocations of the wrapped operation
in the running episode; `N` is `halfMaxCalls`. -/
def EpisodeInv (N : Nat) (b : ServiceBreaker) (g : Nat) : Prop :=
  b.halfMaxCalls = N ∧ g ≤ N ∧
    (b.state = StateHalfOpen →
      b.metrics.CountAll = g ∧ b.metrics.ConsecutiveSuccess = g ∧ g < N)

/-- An operation of a sequential execution: a call all of whose clock readings
are `t`. -/
def opAt (t : Time) (exec : Outcome) : Op := Op.call ⟨t, t, t, t⟩ exec

/-- A sequential execution of the test breaker: it is opened by hand at time
100, and after the timeout three calls follow, all successful. -/
def trialOps : List Op :=
  [Op.openBreaker 100 100, opAt (7 * second) okExec, opAt (8 * second) okExec,
    opAt (9 * second) okExec]


/-! ## Further notions and fixtures -/

/-- The options of the test, with `WindowInterval` set to zero. -/
def zeroWindowOption : BreakerOption := { initOption with WindowInterval := 0 }

/-- The zero value of `TripStrategyOption`. -/
def zeroTripOption : TripStrategyOption := ⟨0, 0, 0, .fin 0, 0⟩

/-- Metrics with every field zero. -/
def zeroMetrics : Metrics := ⟨0, 0, 0, 0, 0, 0, 0⟩

/-- Number of calls at the end of the sequence whose operations failed, one
after the other with no success in between. -/
def trailingFailures (cs : List CallInput) : Nat :=
  (cs.reverse.takeWhile fun c => !c.2.success).length

/-- The two relations between the counters of a window: `CountAll` is the sum
of `CountSuccess` and `CountFail` (a sum of `uint64` values), and the two
streak counters are not both non-zero. -/
def Metrics.Consistent (m : Metrics) : Prop :=
  m.CountAll = (m.CountSuccess + m.CountFail) % U64 ∧
    (m.ConsecutiveSuccess = 0 ∨ m.ConsecutiveFail = 0)

/-- Every invocation of the hook recorded in a trace has a `fromState`
different from its `toState`. -/
def HooksDistinct (tr : List Event) : Prop :=
  ∀ (n : String) (p s : State), Event.hook n p s ∈ tr → p ≠ s

/-- A closed breaker whose `windowInterval` is zero, a value the constructor
rejects: the test breaker with that field and the expiry set to zero. -/
def noWindowBreaker : ServiceBreaker :=
  { initBreaker 0 with
    windowInterval := 0
    metrics := ⟨1, 0, 0, 0, 0, 0, 0⟩ }

/-- A closed breaker late in a window with a history of failures: nine calls,
all failed, and an expiry at five seconds. -/
def busyClosedBreaker : ServiceBreaker :=
  { initBreaker 0 with
    tripStrategyFunc := FailTripFunc 100
    metrics := ⟨1, 5 * second, 9, 0, 9, 0, 9⟩ }

/-- The options of the test with the strategy that is commented out there: the
consecutive-failure strategy, threshold 3. -/
def consecOption : BreakerOption :=
  { initOption with
    TripStrategy :=
      { Strategy := ConsecutiveFailTrip
        ConsecutiveFailThreshold := 3
        FailThreshold := 0
        FailRate := .fin 0
        MinCall := 0 } }

/-- The breaker `NewServiceBreaker consecOption 0` returns. -/
def consecBreaker : ServiceBreaker :=
  { initBreaker 0 with tripStrategyFunc := ConsecutiveFailTripFunc 3 }

/-- The options of the test with the zero value for the trip options. -/
def zeroTripBreakerOption : BreakerOption :=
  { initOption with TripStrategy := zeroTripOption }

/-- The breaker `NewServiceBreaker zeroTripBreakerOption 0` returns. -/
def zeroTripBreaker : ServiceBreaker :=
  { initBreaker 0 with tripStrategyFunc := ChooseTrip zeroTripOption }

/-- The relations of `Metrics.Consistent` together with a bound on the number
of outcomes recorded in the window. -/
def CountBound (m : Metrics) (n : Nat) : Prop :=
  m.Consistent ∧ m.CountSuccess + m.CountFail ≤ n

/-- The breakers that exist in a sequential execution: those the constructor
returns, after any sequence of public operations. -/
def Reachable (b : ServiceBreaker) : Prop :=
  ∃ (op : BreakerOption) (now : Time) (b0 : ServiceBreaker) (ops : List Op),
    NewServiceBreaker op now = .ok b0 ∧ run b0 ops = b

/-- A sequential execution of the test breaker with every kind of operation:
calls that succeed, fail and panic, a manual opening, a rejected call, a call
that enters half-open and a manual closing. -/
def mixedOps : List Op :=
  [opAt 1 okExec, opAt 2 errExec, opAt 3 (Outcome.panic 7), Op.openBreaker 100 100,
    opAt second okExec, opAt (7 * second) okExec, Op.closeBreaker (8 * second) (8 * second),
    opAt (9 * second) errExec]

/-! ## Concurrent callers -/

/-- An atomic step of one of several goroutines that run `Call` on the same
breaker.  `admission` is `beforeCall`, which runs under the mutex (lines
92-120).  `attempt` is lines 73-74, which run without the mutex: the attempt
is counted and the wrapped operation is invoked; the increment is taken as
one indivisible step.  `accounting` is the end of the operation followed by
`afterCall`, which runs under the mutex (lines 123-133). -/
inductive Atomic where
  | admission (caller : Nat) (now clock : Time)
  | attempt (caller : Nat)
  | accounting (caller : Nat) (exec : Outcome) (now clock : Time)

/-- The breaker shared by the callers, with the callers that `beforeCall` has
admitted and that have not reached line 73 yet, and the callers whose
operation is running. -/
structure Shared where
  breaker : ServiceBreaker
  admitted : List Nat
  running : List Nat

/-- One atomic step.  A caller makes its attempt only after its admission and
its accounting only after its attempt; a step out of that order does
nothing. -/
def atomicStep (s : Shared) : Atomic → Shared
  | .admission caller now clock =>
    match s.breaker.beforeCall now clock with
    | (b1, none) => { s with breaker := b1, admitted := caller :: s.admitted }
    | (b1, some _) => { s with breaker := b1 }
  | .attempt caller =>
    if caller ∈ s.admitted then
      { breaker := s.breaker.invoke
        admitted := s.admitted.erase caller
        running := caller :: s.running }
    else s
  | .accounting caller exec now clock =>
    if caller ∈ s.running then
      { s with
        breaker := s.breaker.afterCall exec.success now clock
        running := s.running.erase caller }
    else s

/-- An interleaving of atomic steps, executed from left to right. -/
def interleave (s : Shared) : List Atomic → Shared
  | [] => s
  | a :: as => interleave (atomicStep s a) as

/-- Four callers reach the open test breaker after its timeout; the four
admission checks run before any of the callers counts its attempt. -/
def raceSchedule : List Atomic :=
  [Atomic.admission 1 (7 * second) (7 * second), Atomic.admission 2 (7 * second) (7 * second),
    Atomic.admission 3 (7 * second) (7 * second), Atomic.admission 4 (7 * second) (7 * second),
    Atomic.attempt 1, Atomic.attempt 2, Atomic.attempt 3, Atomic.attempt 4]

/-! ## Theorems -/

/-- The test fixture is what the constructor returns. -/
theorem initBreaker_eq (now : Time) :
    NewServiceBreaker initOption now = .ok (initBreaker now) := by
  rfl

/-! ### Frame lemmas for `nextWindow`, `changeState` and `invoke` -/

theorem nextWindow_frame (b : ServiceBreaker) (now : Time) :
    (b.nextWindow now).state = b.state ∧
      (b.nextWindow now).name = b.name ∧
      (b.nextWindow now).windowInterval = b.windowInterval ∧
      (b.nextWindow now).tripStrategyFunc = b.tripStrategyFunc ∧
      (b.nextWindow now).halfMaxCalls = b.halfMaxCalls ∧
      (b.nextWindow now).sleepTimeout = b.sleepTimeout ∧
      (b.nextWindow now).stateChangeHook = b.stateChangeHook ∧
      (b.nextWindow now).stateOpenTime = b.stateOpenTime ∧
      (b.nextWindow now).trace = b.trace := by
  unfold nextWindow
  cases b.state <;> simp only [] <;> (try split_ifs) <;> simp

theorem nextWindow_counters (b : ServiceBreaker) (now : Time) :
    (b.nextWindow now).metrics.WindowBatch = inc64 b.metrics.WindowBatch ∧
      (b.nextWindow now).metrics.CountAll = 0 ∧
      (b.nextWindow now).metrics.CountSuccess = 0 ∧
      (b.nextWindow now).metrics.CountFail = 0 ∧
      (b.nextWindow now).metrics.ConsecutiveSuccess = 0 ∧
      (b.nextWindow now).metrics.ConsecutiveFail = 0 := by
  unfold nextWindow
  cases b.state <;> simp only [] <;> (try split_ifs) <;>
    simp [Metrics.NewBatch, Metrics.OnReset]

theorem changeState_same (b : ServiceBreaker) (s : State) (now clock : Time)
    (h : b.state = s) : b.changeState s now clock = b := by
  unfold changeState
  rw [if_pos h]

theorem changeState_frame (b : ServiceBreaker) (s : State) (now clock : Time) :
    (b.changeState s now clock).state = s ∧
      (b.changeState s now clock).name = b.name ∧
      (b.changeState s now clock).windowInterval = b.windowInterval ∧
      (b.changeState s now clock).tripStrategyFunc = b.tripStrategyFunc ∧
      (b.changeState s now clock).halfMaxCalls = b.halfMaxCalls ∧
      (b.changeState s now clock).sleepTimeout = b.sleepTimeout ∧
      (b.changeState s now clock).stateChangeHook = b.stateChangeHook := by
  unfold changeState
  by_cases h : b.state = s
  · simp [h]
  · simp only [if_neg h]
    have hf := nextWindow_frame { b with state := s } clock
    split_ifs <;> simp [hf]

theorem changeState_counters (b : ServiceBreaker) (s : State) (now clock : Time)
    (h : b.state ≠ s) :
    (b.changeState s now clock).metrics.WindowBatch = inc64 b.metrics.WindowBatch ∧
      (b.changeState s now clock).metrics.CountAll = 0 ∧
      (b.changeState s now clock).metrics.CountSuccess = 0 ∧
      (b.changeState s now clock).metrics.CountFail = 0 ∧
      (b.changeState s now clock).metrics.ConsecutiveSuccess = 0 ∧
      (b.changeState s now clock).metrics.ConsecutiveFail = 0 := by
  unfold changeState
  simp only [if_neg h]
  have hc := nextWindow_counters { b with state := s } clock
  split_ifs <;> simp [hc]

theorem changeState_openTime (b : ServiceBreaker) (now clock : Time)
    (h : b.state ≠ StateOpen) :
    (b.changeState StateOpen now clock).stateOpenTime = now := by
  unfold changeState
  simp only [if_neg h]
  split_ifs <;> simp

theorem changeState_trace (b : ServiceBreaker) (s : State) (now clock : Time) :
    (b.changeState s now clock).trace =
      if b.state = s then b.trace
      else if b.stateChangeHook = true then b.trace ++ [Event.hook b.name b.state s]
      else b.trace := by
  unfold changeState
  by_cases h : b.state = s
  · simp only [if_pos h]
  · simp only [if_neg h]
    obtain ⟨-, hn, -, -, -, -, hk, -, ht⟩ := nextWindow_frame { b with state := s } clock
    generalize ServiceBreaker.nextWindow { b with state := s } clock = b2 at hn hk ht ⊢
    simp only at hn hk ht
    by_cases ho : s = StateOpen <;> by_cases hh : b.stateChangeHook = true <;>
      simp [ho, hh, hn, hk, ht]

theorem changeState_exec_count (b : ServiceBreaker) (s : State) (now clock : Time) :
    (b.changeState s now clock).trace.count Event.exec = b.trace.count Event.exec := by
  rw [changeState_trace]
  split_ifs <;> simp [List.count_append, List.count_cons]

@[simp]
theorem invoke_state (b : ServiceBreaker) : b.invoke.state = b.state := rfl

@[simp]
theorem invoke_halfMaxCalls (b : ServiceBreaker) :
    b.invoke.halfMaxCalls = b.halfMaxCalls := rfl

@[simp]
theorem invoke_tripStrategyFunc (b : ServiceBreaker) :
    b.invoke.tripStrategyFunc = b.tripStrategyFunc := rfl

@[simp]
theorem invoke_stateOpenTime (b : ServiceBreaker) :
    b.invoke.stateOpenTime = b.stateOpenTime := rfl

@[simp]
theorem invoke_sleepTimeout (b : ServiceBreaker) :
    b.invoke.sleepTimeout = b.sleepTimeout := rfl

@[simp]
theorem invoke_metrics (b : ServiceBreaker) :
    b.invoke.metrics = b.metrics.OnCall := rfl

@[simp]
theorem invoke_trace (b : ServiceBreaker) :
    b.invoke.trace = b.trace ++ [Event.exec] := rfl

/-! ### `afterCall`, case by case -/

theorem afterCall_true (b : ServiceBreaker) (now clock : Time) :
    b.afterCall true now clock =
      if b.state = StateHalfOpen ∧ inc64 b.metrics.ConsecutiveSuccess ≥ b.halfMaxCalls then
        changeState { b with metrics := b.metrics.OnSuccess } StateClosed now clock
      else { b with metrics := b.metrics.OnSuccess } := rfl

theorem afterCall_false_closed (b : ServiceBreaker) (now clock : Time)
    (hs : b.state = StateClosed) :
    b.afterCall false now clock =
      if b.tripStrategyFunc b.metrics.OnFail = true then
        changeState { b with metrics := b.metrics.OnFail } StateOpen now clock
      else { b with metrics := b.metrics.OnFail } := by
  simp only [afterCall, onFail, hs, Bool.false_eq_true, if_false]

theorem afterCall_false_halfOpen (b : ServiceBreaker) (now clock : Time)
    (hs : b.state = StateHalfOpen) :
    b.afterCall false now clock =
      changeState { b with metrics := b.metrics.OnFail } StateOpen now clock := by
  simp only [afterCall, onFail, hs, Bool.false_eq_true, if_false]

theorem afterCall_false_open (b : ServiceBreaker) (now clock : Time)
    (hs : b.state = StateOpen) :
    b.afterCall false now clock = { b with metrics := b.metrics.OnFail } := by
  simp only [afterCall, onFail, hs, Bool.false_eq_true, if_false]

theorem afterCall_exec_count (b : ServiceBreaker) (success : Bool) (now clock : Time) :
    (b.afterCall success now clock).trace.count Event.exec = b.trace.count Event.exec := by
  cases success
  · cases hs : b.state
    · rw [afterCall_false_closed b now clock hs]
      split_ifs <;> simp [changeState_exec_count]
    · rw [afterCall_false_open b now clock hs]
    · rw [afterCall_false_halfOpen b now clock hs]
      simp [changeState_exec_count]
  · rw [afterCall_true]
    split_ifs <;> simp [changeState_exec_count]

/-- After a failed call on a half-open breaker: open, opened at `now`, all
counters zero. -/
theorem afterCall_false_halfOpen_fields (b : ServiceBreaker) (now clock : Time)
    (hs : b.state = StateHalfOpen) :
    (b.afterCall false now clock).state = StateOpen ∧
      (b.afterCall false now clock).stateOpenTime = now ∧
      (b.afterCall false now clock).metrics.CountAll = 0 ∧
      (b.afterCall false now clock).metrics.CountSuccess = 0 ∧
      (b.afterCall false now clock).metrics.CountFail = 0 ∧
      (b.afterCall false now clock).metrics.ConsecutiveSuccess = 0 ∧
      (b.afterCall false now clock).metrics.ConsecutiveFail = 0 := by
  rw [afterCall_false_halfOpen b now clock hs]
  have hne : ({ b with metrics := b.metrics.OnFail } : ServiceBreaker).state ≠ StateOpen := by
    simp [hs]
  have h1 := changeState_frame { b with metrics := b.metrics.OnFail } StateOpen now clock
  have h2 := changeState_counters _ StateOpen now clock hne
  have h3 := changeState_openTime _ now clock hne
  exact ⟨h1.1, h3, h2.2.1, h2.2.2.1, h2.2.2.2.1, h2.2.2.2.2.1, h2.2.2.2.2.2⟩

/-! ### `beforeCall` and `Call` -/

/-- A call rejected by `beforeCall` leaves the breaker as it was. -/
theorem beforeCall_reject_same (b : ServiceBreaker) (now clock : Time) (e : Err)
    (h : (b.beforeCall now clock).2 = some e) : (b.beforeCall now clock).1 = b := by
  unfold beforeCall at h ⊢
  cases hs : b.state <;> simp only [hs] at h ⊢ <;> split_ifs at h ⊢ <;> simp_all

/-- The only errors of `beforeCall` are the two errors of the package. -/
theorem beforeCall_err_cases (b : ServiceBreaker) (now clock : Time) (e : Err)
    (h : (b.beforeCall now clock).2 = some e) : e = ErrStateOpen ∨ e = ErrTooManyCalls := by
  unfold beforeCall at h
  cases hs : b.state <;> simp only [hs] at h <;> split_ifs at h <;> simp_all

/-- On a half-open breaker `beforeCall` changes nothing. -/
theorem beforeCall_halfOpen (b : ServiceBreaker) (now clock : Time)
    (hs : b.state = StateHalfOpen) : (b.beforeCall now clock).1 = b := by
  unfold beforeCall
  simp only [hs]
  split_ifs <;> rfl

theorem beforeCall_exec_count (b : ServiceBreaker) (now clock : Time) :
    (b.beforeCall now clock).1.trace.count Event.exec = b.trace.count Event.exec := by
  unfold beforeCall
  cases hs : b.state <;> simp only [] <;> split_ifs <;>
    simp [changeState_exec_count, (nextWindow_frame b now).2.2.2.2.2.2.2.2]

/-- What `Call` does when `beforeCall` rejects. -/
theorem Call_rejected (b : ServiceBreaker) (ts : CallTimes) (exec : Outcome) (e : Err)
    (h : (b.beforeCall ts.tBefore ts.tBeforeCS).2 = some e) :
    b.Call ts exec = (b, CallResult.ret none (some e)) := by
  have h1 := beforeCall_reject_same b ts.tBefore ts.tBeforeCS e h
  unfold Call
  rcases hb : b.beforeCall ts.tBefore ts.tBeforeCS with ⟨b1, r⟩
  rw [hb] at h h1
  simp only at h h1
  subst h h1
  rfl

/-- What `Call` does when `beforeCall` admits. -/
theorem Call_admitted (b : ServiceBreaker) (ts : CallTimes) (exec : Outcome)
    (h : (b.beforeCall ts.tBefore ts.tBeforeCS).2 = none) :
    b.Call ts exec =
      ((b.beforeCall ts.tBefore ts.tBeforeCS).1.invoke.afterCall exec.success
        ts.tAfter ts.tAfterCS, exec.toResult) := by
  unfold Call
  rcases hb : b.beforeCall ts.tBefore ts.tBeforeCS with ⟨b1, r⟩
  rw [hb] at h
  simp only at h
  subst h
  rfl

/-- The wrapped operation is invoked once by an admitted call. -/
theorem Call_admit_exec_count (b : ServiceBreaker) (ts : CallTimes) (exec : Outcome)
    (h : (b.beforeCall ts.tBefore ts.tBeforeCS).2 = none) :
    (b.Call ts exec).1.trace.count Event.exec = b.trace.count Event.exec + 1 := by
  rw [Call_admitted b ts exec h]
  simp only [afterCall_exec_count, invoke_trace, List.count_append, beforeCall_exec_count]
  rfl

/-! ### The claims about a single call -/

/-- C2.  A call on an open breaker made at a time before
`stateOpenTime + sleepTimeout` returns `(nil, ErrStateOpen)`; the wrapped
operation is not invoked (the trace, and indeed the whole breaker, is as
before). -/
theorem open_blocks_before_timeout (b : ServiceBreaker) (ts : CallTimes) (exec : Outcome)
    (hs : b.state = StateOpen) (ht : ts.tBefore < b.stateOpenTime + b.sleepTimeout) :
    (b.Call ts exec).2 = CallResult.ret none (some ErrStateOpen) ∧
      (b.Call ts exec).1.trace = b.trace ∧ (b.Call ts exec).1 = b := by
  have h : (b.beforeCall ts.tBefore ts.tBeforeCS).2 = some ErrStateOpen := by
    unfold beforeCall
    simp only [hs]
    rw [if_neg (not_lt.mpr ht.le)]
  rw [Call_rejected b ts exec ErrStateOpen h]
  exact ⟨rfl, rfl, rfl⟩

/-- Witness of C2: the test breaker opened by hand at time 100, called one
second later. -/
theorem open_blocks_before_timeout_witness :
    (openedBreaker.Call ⟨100 + second, 0, 0, 0⟩ okExec).2
        = CallResult.ret none (some ErrStateOpen) ∧
      (openedBreaker.Call ⟨100 + second, 0, 0, 0⟩ okExec).1.trace = openedBreaker.trace ∧
      (openedBreaker.Call ⟨100 + second, 0, 0, 0⟩ okExec).1 = openedBreaker :=
  open_blocks_before_timeout openedBreaker ⟨100 + second, 0, 0, 0⟩ okExec rfl (by decide)

/-- Counterexample to C3 as stated: the test breaker is opened by hand at time
100 with `sleepTimeout` of six seconds; the admission check made exactly at
`stateOpenTime + sleepTimeout` rejects with `ErrStateOpen` and the state stays
`StateOpen`. -/
theorem open_rejects_at_exact_timeout :
    openedBreaker.state = StateOpen ∧
      openedBreaker.stateOpenTime + openedBreaker.sleepTimeout = 100 + 6 * second ∧
      (openedBreaker.beforeCall (100 + 6 * second) (100 + 6 * second)).2
        = some ErrStateOpen ∧
      (openedBreaker.beforeCall (100 + 6 * second) (100 + 6 * second)).1.state
        = StateOpen := by
  decide

/-- C3, amended.  On an open breaker the admission check at time `now` admits
the call and moves the breaker to `StateHalfOpen` exactly when `now` is
strictly after `stateOpenTime + sleepTimeout`; at any other time, the instant
`stateOpenTime + sleepTimeout` itself included, it rejects with `ErrStateOpen`
and changes nothing. -/
theorem open_admits_iff_after_timeout (b : ServiceBreaker) (now clock : Time)
    (hs : b.state = StateOpen) :
    (((b.beforeCall now clock).2 = none ∧ (b.beforeCall now clock).1.state = StateHalfOpen)
        ↔ b.stateOpenTime + b.sleepTimeout < now) ∧
      (¬ (b.stateOpenTime + b.sleepTimeout < now) →
        b.beforeCall now clock = (b, some ErrStateOpen)) := by
  unfold beforeCall
  simp only [hs]
  by_cases h : b.stateOpenTime + b.sleepTimeout < now
  · rw [if_pos h]
    exact ⟨⟨fun _ => h, fun _ => ⟨rfl, (changeState_frame b StateHalfOpen now clock).1⟩⟩,
      fun hn => absurd h hn⟩
  · rw [if_neg h]
    exact ⟨⟨fun hh => by simp at hh, fun hh => absurd hh h⟩, fun _ => rfl⟩

/-- Witness of C3 amended: one nanosecond after the timeout the test breaker
opened at time 100 admits the call and is half-open. -/
theorem open_admits_iff_after_timeout_witness :
    (((openedBreaker.beforeCall (101 + 6 * second) 0).2 = none ∧
      (openedBreaker.beforeCall (101 + 6 * second) 0).1.state = StateHalfOpen)
        ↔ openedBreaker.stateOpenTime + openedBreaker.sleepTimeout < 101 + 6 * second) ∧
      (¬ (openedBreaker.stateOpenTime + openedBreaker.sleepTimeout < 101 + 6 * second) →
        openedBreaker.beforeCall (101 + 6 * second) 0 = (openedBreaker, some ErrStateOpen)) :=
  open_admits_iff_after_timeout openedBreaker (101 + 6 * second) 0 rfl

/-- C5.  On a half-open breaker, whatever its metrics, an admitted call whose
operation fails (it returns an error or panics) leaves the breaker in state
`StateOpen`, with `stateOpenTime` equal to the clock reading of `afterCall`
and the five counters at zero. -/
theorem halfopen_failure_reopens (b : ServiceBreaker) (ts : CallTimes) (exec : Outcome)
    (hs : b.state = StateHalfOpen)
    (hadm : (b.beforeCall ts.tBefore ts.tBeforeCS).2 = none)
    (hf : exec.success = false) :
    (b.Call ts exec).1.state = StateOpen ∧
      (b.Call ts exec).1.stateOpenTime = ts.tAfter ∧
      (b.Call ts exec).1.metrics.CountAll = 0 ∧
      (b.Call ts exec).1.metrics.CountSuccess = 0 ∧
      (b.Call ts exec).1.metrics.CountFail = 0 ∧
      (b.Call ts exec).1.metrics.ConsecutiveSuccess = 0 ∧
      (b.Call ts exec).1.metrics.ConsecutiveFail = 0 := by
  rw [Call_admitted b ts exec hadm, beforeCall_halfOpen b _ _ hs, hf]
  exact afterCall_false_halfOpen_fields b.invoke ts.tAfter ts.tAfterCS hs

/-- Witness of C5: the third trial call fails after two successes. -/
theorem halfopen_failure_reopens_witness :
    (halfOpenBreaker.Call ⟨10, 11, 12, 13⟩ errExec).1.state = StateOpen ∧
      (halfOpenBreaker.Call ⟨10, 11, 12, 13⟩ errExec).1.stateOpenTime = 12 ∧
      (halfOpenBreaker.Call ⟨10, 11, 12, 13⟩ errExec).1.metrics.CountAll = 0 ∧
      (halfOpenBreaker.Call ⟨10, 11, 12, 13⟩ errExec).1.metrics.CountSuccess = 0 ∧
      (halfOpenBreaker.Call ⟨10, 11, 12, 13⟩ errExec).1.metrics.CountFail = 0 ∧
      (halfOpenBreaker.Call ⟨10, 11, 12, 13⟩ errExec).1.metrics.ConsecutiveSuccess = 0 ∧
      (halfOpenBreaker.Call ⟨10, 11, 12, 13⟩ errExec).1.metrics.ConsecutiveFail = 0 :=
  halfopen_failure_reopens halfOpenBreaker ⟨10, 11, 12, 13⟩ errExec rfl (by decide) rfl

/-- C8.  Every call goes one of two ways.  Either `beforeCall` admits it: then
the wrapped operation is invoked exactly once and `Call` hands on what the
operation did, the very pair `(result, err)` when it returned (also when `err`
is not nil), whatever transition `afterCall` makes.  Or `beforeCall` rejects
it: then the operation is not invoked and `Call` returns a nil result with
`ErrStateOpen` or `ErrTooManyCalls`.  So an error of the breaker itself comes
from a rejection only. -/
theorem call_result_passthrough (b : ServiceBreaker) (ts : CallTimes) (exec : Outcome) :
    ((b.beforeCall ts.tBefore ts.tBeforeCS).2 = none ∧
        (b.Call ts exec).2 = exec.toResult ∧
        (∀ result err, exec = Outcome.ret result err →
          (b.Call ts exec).2 = CallResult.ret result err) ∧
        (b.Call ts exec).1.trace.count Event.exec = b.trace.count Event.exec + 1) ∨
      (∃ e, (e = ErrStateOpen ∨ e = ErrTooManyCalls) ∧
        (b.beforeCall ts.tBefore ts.tBeforeCS).2 = some e ∧
        (b.Call ts exec).2 = CallResult.ret none (some e) ∧
        (b.Call ts exec).1.trace = b.trace) := by
  cases h : (b.beforeCall ts.tBefore ts.tBeforeCS).2 with
  | none =>
    left
    refine ⟨rfl, ?_, ?_, Call_admit_exec_count b ts exec h⟩
    · rw [Call_admitted b ts exec h]
    · intro result err he
      rw [Call_admitted b ts exec h]
      subst he
      rfl
  | some e =>
    right
    rw [Call_rejected b ts exec e h]
    exact ⟨e, beforeCall_err_cases b _ _ e h, rfl, rfl, rfl⟩

/-- C9.  When `beforeCall` rejects a call (with `ErrStateOpen` or
`ErrTooManyCalls`), `Call` returns that error with a nil result and the
breaker is exactly as before: state, `stateOpenTime`, `WindowBatch`,
`WindowTimeStart` and the five counters are unchanged, and the trace is
unchanged, so neither the wrapped operation nor the hook was invoked. -/
theorem rejected_call_changes_nothing (b : ServiceBreaker) (ts : CallTimes) (exec : Outcome)
    (e : Err) (h : (b.beforeCall ts.tBefore ts.tBeforeCS).2 = some e) :
    (e = ErrStateOpen ∨ e = ErrTooManyCalls) ∧
      (b.Call ts exec).2 = CallResult.ret none (some e) ∧
      (b.Call ts exec).1 = b ∧
      (b.Call ts exec).1.state = b.state ∧
      (b.Call ts exec).1.stateOpenTime = b.stateOpenTime ∧
      (b.Call ts exec).1.metrics = b.metrics ∧
      (b.Call ts exec).1.trace = b.trace := by
  rw [Call_rejected b ts exec e h]
  exact ⟨beforeCall_err_cases b _ _ e h, rfl, rfl, rfl, rfl, rfl, rfl⟩

/-- Witness of C9: a call on a half-open breaker whose budget is used up. -/
theorem rejected_call_changes_nothing_witness :
    (ErrTooManyCalls = ErrStateOpen ∨ ErrTooManyCalls = ErrTooManyCalls) ∧
      (fullHalfOpenBreaker.Call ⟨10, 11, 12, 13⟩ okExec).2
        = CallResult.ret none (some ErrTooManyCalls) ∧
      (fullHalfOpenBreaker.Call ⟨10, 11, 12, 13⟩ okExec).1 = fullHalfOpenBreaker ∧
      (fullHalfOpenBreaker.Call ⟨10, 11, 12, 13⟩ okExec).1.state = fullHalfOpenBreaker.state ∧
      (fullHalfOpenBreaker.Call ⟨10, 11, 12, 13⟩ okExec).1.stateOpenTime
        = fullHalfOpenBreaker.stateOpenTime ∧
      (fullHalfOpenBreaker.Call ⟨10, 11, 12, 13⟩ okExec).1.metrics
        = fullHalfOpenBreaker.metrics ∧
      (fullHalfOpenBreaker.Call ⟨10, 11, 12, 13⟩ okExec).1.trace = fullHalfOpenBreaker.trace :=
  rejected_call_changes_nothing fullHalfOpenBreaker ⟨10, 11, 12, 13⟩ okExec ErrTooManyCalls
    (by decide)

/-- C10.  For an admitted call whose operation panics with value `v`: the
breaker ends exactly as after the same call with the operation returning any
non-nil error `e` (so the attempt is counted, a failure is recorded and the
same transition is taken), the operation was invoked once, and the panic with
value `v` goes on to the caller of `Call`. -/
theorem panic_accounted_as_failure (b : ServiceBreaker) (ts : CallTimes) (v : Value)
    (result : Option Value) (e : Err)
    (hadm : (b.beforeCall ts.tBefore ts.tBeforeCS).2 = none) :
    (b.Call ts (Outcome.panic v)).1 = (b.Call ts (Outcome.ret result (some e))).1 ∧
      (b.Call ts (Outcome.panic v)).2 = CallResult.panicked v ∧
      (b.Call ts (Outcome.ret result (some e))).2 = CallResult.ret result (some e) ∧
      (b.Call ts (Outcome.panic v)).1.trace.count Event.exec
        = b.trace.count Event.exec + 1 := by
  refine ⟨?_, ?_, ?_, Call_admit_exec_count b ts _ hadm⟩
  · rw [Call_admitted b ts _ hadm, Call_admitted b ts _ hadm]
    rfl
  · rw [Call_admitted b ts _ hadm]
    rfl
  · rw [Call_admitted b ts _ hadm]
    rfl

/-- Witness of C10: a panic in the third trial call of a half-open episode. -/
theorem panic_accounted_as_failure_witness :
    (halfOpenBreaker.Call ⟨10, 11, 12, 13⟩ (Outcome.panic 7)).1
        = (halfOpenBreaker.Call ⟨10, 11, 12, 13⟩ (Outcome.ret none (some (Err.other 0)))).1 ∧
      (halfOpenBreaker.Call ⟨10, 11, 12, 13⟩ (Outcome.panic 7)).2 = CallResult.panicked 7 ∧
      (halfOpenBreaker.Call ⟨10, 11, 12, 13⟩ (Outcome.ret none (some (Err.other 0)))).2
        = CallResult.ret none (some (Err.other 0)) ∧
      (halfOpenBreaker.Call ⟨10, 11, 12, 13⟩ (Outcome.panic 7)).1.trace.count Event.exec
        = halfOpenBreaker.trace.count Event.exec + 1 :=
  panic_accounted_as_failure halfOpenBreaker ⟨10, 11, 12, 13⟩ 7 none (Err.other 0)
    (by decide)

/-! ### Calls in sequence -/

theorem calls_append (cs : List CallInput) (c : CallInput) :
    ∀ b : ServiceBreaker, calls b (cs ++ [c]) = ((calls b cs).Call c.1 c.2).1 := by
  induction cs with
  | nil => intro b; rfl
  | cons x xs ih => intro b; exact ih _

theorem inc64_of_lt (x : Nat) (h : x + 1 < U64) : inc64 x = x + 1 :=
  Nat.mod_eq_of_lt h

/-- On a closed breaker whose window has not expired `beforeCall` admits the
call and changes nothing. -/
theorem beforeCall_closed (b : ServiceBreaker) (now clock : Time)
    (hs : b.state = StateClosed)
    (hw : ¬ (b.metrics.WindowTimeStart ≠ 0 ∧ b.metrics.WindowTimeStart < now)) :
    b.beforeCall now clock = (b, none) := by
  unfold beforeCall
  simp only [hs]
  rw [if_neg hw]

theorem Call_closed (b : ServiceBreaker) (ts : CallTimes) (exec : Outcome)
    (hs : b.state = StateClosed)
    (hw : ¬ (b.metrics.WindowTimeStart ≠ 0 ∧ b.metrics.WindowTimeStart < ts.tBefore)) :
    (b.Call ts exec).1 = b.invoke.afterCall exec.success ts.tAfter ts.tAfterCS := by
  have hb := beforeCall_closed b ts.tBefore ts.tBeforeCS hs hw
  rw [Call_admitted b ts exec (by rw [hb]), hb]

/-- A successful call inside the window of a closed breaker. -/
theorem closed_call_success (b : ServiceBreaker) (ts : CallTimes) (exec : Outcome)
    (hs : b.state = StateClosed)
    (hw : ¬ (b.metrics.WindowTimeStart ≠ 0 ∧ b.metrics.WindowTimeStart < ts.tBefore))
    (hok : exec.success = true) :
    (b.Call ts exec).1.state = StateClosed ∧
      (b.Call ts exec).1.tripStrategyFunc = b.tripStrategyFunc ∧
      (b.Call ts exec).1.metrics.WindowTimeStart = b.metrics.WindowTimeStart ∧
      (b.Call ts exec).1.metrics.CountFail = b.metrics.CountFail := by
  rw [Call_closed b ts exec hs hw, hok, afterCall_true]
  rw [if_neg (by simp [hs])]
  simp [hs, Metrics.OnSuccess, Metrics.OnCall]

/-- A failed call inside the window of a closed breaker that leaves the count
of failures below the threshold of the failure-count strategy. -/
theorem closed_call_fail_below (b : ServiceBreaker) (ts : CallTimes) (exec : Outcome)
    (T : Nat) (hT : T < U64) (hs : b.state = StateClosed)
    (htrip : b.tripStrategyFunc = FailTripFunc T)
    (hw : ¬ (b.metrics.WindowTimeStart ≠ 0 ∧ b.metrics.WindowTimeStart < ts.tBefore))
    (hf : exec.success = false) (hlt : b.metrics.CountFail + 1 < T) :
    (b.Call ts exec).1.state = StateClosed ∧
      (b.Call ts exec).1.tripStrategyFunc = b.tripStrategyFunc ∧
      (b.Call ts exec).1.metrics.WindowTimeStart = b.metrics.WindowTimeStart ∧
      (b.Call ts exec).1.metrics.CountFail = b.metrics.CountFail + 1 := by
  rw [Call_closed b ts exec hs hw, hf, afterCall_false_closed _ _ _ (by simpa using hs)]
  have hinc : inc64 b.metrics.CountFail = b.metrics.CountFail + 1 :=
    inc64_of_lt _ (by omega)
  have hno : ¬ (b.invoke.tripStrategyFunc b.invoke.metrics.OnFail = true) := by
    simp only [invoke_tripStrategyFunc, invoke_metrics, htrip, FailTripFunc, Metrics.OnFail,
      Metrics.OnCall, hinc, decide_eq_true_eq]
    omega
  rw [if_neg hno]
  simp [hs, Metrics.OnFail, Metrics.OnCall, hinc]

/-- A failed call inside the window of a closed breaker that brings the count
of failures to the threshold of the failure-count strategy. -/
theorem closed_call_fail_reach (b : ServiceBreaker) (ts : CallTimes) (exec : Outcome)
    (T : Nat) (hT : T < U64) (hs : b.state = StateClosed)
    (htrip : b.tripStrategyFunc = FailTripFunc T)
    (hw : ¬ (b.metrics.WindowTimeStart ≠ 0 ∧ b.metrics.WindowTimeStart < ts.tBefore))
    (hf : exec.success = false) (heq : b.metrics.CountFail + 1 = T) :
    (b.Call ts exec).1.state = StateOpen := by
  rw [Call_closed b ts exec hs hw, hf, afterCall_false_closed _ _ _ (by simpa using hs)]
  have hinc : inc64 b.metrics.CountFail = b.metrics.CountFail + 1 :=
    inc64_of_lt _ (by omega)
  have hyes : b.invoke.tripStrategyFunc b.invoke.metrics.OnFail = true := by
    simp only [invoke_tripStrategyFunc, invoke_metrics, htrip, FailTripFunc, Metrics.OnFail,
      Metrics.OnCall, hinc, decide_eq_true_eq]
    omega
  rw [if_pos hyes]
  exact (changeState_frame _ StateOpen _ _).1

theorem inWindow_cons (b : ServiceBreaker) (c : CallInput) (cs : List CallInput) :
    inWindow b (c :: cs) = true ↔
      ¬ (b.metrics.WindowTimeStart ≠ 0 ∧ b.metrics.WindowTimeStart < c.1.tBefore) ∧
        inWindow b cs = true := by
  simp only [inWindow, List.all_cons, Bool.and_eq_true, Bool.not_eq_true', Bool.and_eq_false_imp,
    decide_eq_true_eq, decide_eq_false_iff_not, not_and]

theorem inWindow_congr (b b1 : ServiceBreaker) (cs : List CallInput)
    (h : b1.metrics.WindowTimeStart = b.metrics.WindowTimeStart) :
    inWindow b1 cs = inWindow b cs := by
  unfold inWindow
  rw [h]

theorem inWindow_append (b : ServiceBreaker) (cs : List CallInput) (c : CallInput) :
    inWindow b (cs ++ [c]) = true ↔
      inWindow b cs = true ∧
        ¬ (b.metrics.WindowTimeStart ≠ 0 ∧ b.metrics.WindowTimeStart < c.1.tBefore) := by
  simp only [inWindow, List.all_append, List.all_cons, List.all_nil, Bool.and_true,
    Bool.and_eq_true, Bool.not_eq_true', Bool.and_eq_false_imp,
    decide_eq_true_eq, decide_eq_false_iff_not, not_and]

theorem failures_cons (c : CallInput) (cs : List CallInput) :
    failures (c :: cs) = (if c.2.success = true then 0 else 1) + failures cs := by
  unfold failures
  rw [List.countP_cons]
  cases c.2.success <;> simp [Nat.add_comm]

/-- Inside one window, a closed breaker with the failure-count strategy stays
closed, and counts every failure, as long as the count stays below the
threshold. -/
theorem calls_closed_below (T : Nat) (hT : T < U64) :
    ∀ (cs : List CallInput) (b : ServiceBreaker), b.state = StateClosed →
      b.tripStrategyFunc = FailTripFunc T → inWindow b cs = true →
      b.metrics.CountFail + failures cs < T →
      (calls b cs).state = StateClosed ∧
        (calls b cs).tripStrategyFunc = FailTripFunc T ∧
        (calls b cs).metrics.WindowTimeStart = b.metrics.WindowTimeStart ∧
        (calls b cs).metrics.CountFail = b.metrics.CountFail + failures cs := by
  intro cs
  induction cs with
  | nil =>
    intro b hs htrip _ _
    exact ⟨hs, htrip, rfl, by simp [failures, calls]⟩
  | cons c cs ih =>
    intro b hs htrip hw hlt
    rw [inWindow_cons] at hw
    rw [failures_cons] at hlt ⊢
    cases hc : c.2.success with
    | true =>
      rw [hc] at hlt
      simp only [if_true, Nat.zero_add] at hlt ⊢
      obtain ⟨h1, h2, h3, h4⟩ := closed_call_success b c.1 c.2 hs hw.1 hc
      have := ih (b.Call c.1 c.2).1 h1 (h2.trans htrip)
        (by rw [inWindow_congr b _ cs h3]; exact hw.2) (by rw [h4]; exact hlt)
      simp only [calls]
      rw [h3, h4] at this
      exact this
    | false =>
      rw [hc] at hlt
      simp only [Bool.false_eq_true, if_false] at hlt ⊢
      obtain ⟨h1, h2, h3, h4⟩ :=
        closed_call_fail_below b c.1 c.2 T hT hs htrip hw.1 hc (by omega)
      have := ih (b.Call c.1 c.2).1 h1 (h2.trans htrip)
        (by rw [inWindow_congr b _ cs h3]; exact hw.2) (by rw [h4]; omega)
      simp only [calls]
      rw [h3, h4] at this
      refine ⟨this.1, this.2.1, this.2.2.1, ?_⟩
      rw [this.2.2.2]
      omega

/-- C1.  A closed breaker with the failure-count strategy of threshold `T`
(a `uint64`), `CountFail` being the failures recorded so far in the current
window (zero when the window has just begun).  Take calls that come one after
the other inside that window, none of them rolling it.  First part: after any
such sequence that leaves the number of failed calls of the window below `T`
the breaker is closed, whatever successes are interleaved.  Second part: when
a further call fails (by an error or a panic) and is the `T`-th failure of the
window, the breaker is closed before it and open right after it.  (Both parts
need `T >= 1` to say anything.) -/
theorem failTrip_opens_at_threshold (b : ServiceBreaker) (T : Nat)
    (hT : T < U64) (hs : b.state = StateClosed)
    (htrip : b.tripStrategyFunc = FailTripFunc T) :
    (∀ cs : List CallInput, inWindow b cs = true →
        b.metrics.CountFail + failures cs < T → (calls b cs).state = StateClosed) ∧
      (∀ (cs : List CallInput) (c : CallInput), inWindow b (cs ++ [c]) = true →
        c.2.success = false → b.metrics.CountFail + failures cs + 1 = T →
        (calls b cs).state = StateClosed ∧ (calls b (cs ++ [c])).state = StateOpen) := by
  constructor
  · intro cs hw hlt
    exact (calls_closed_below T hT cs b hs htrip hw hlt).1
  · intro cs c hw hf heq
    rw [inWindow_append] at hw
    obtain ⟨h1, h2, h3, h4⟩ := calls_closed_below T hT cs b hs htrip hw.1 (by omega)
    refine ⟨h1, ?_⟩
    rw [calls_append]
    exact closed_call_fail_reach (calls b cs) c.1 c.2 T hT h1 h2 (by rw [h3]; exact hw.2) hf
      (by rw [h4]; exact heq)

/-- Witness of C1, threshold 3 as in the test: after a failure, a success and a
second failure the breaker is closed; the third failure opens it. -/
theorem failTrip_opens_at_threshold_witness :
    (calls (initBreaker 0) [callAt 1 errExec, callAt 2 okExec, callAt 3 errExec]).state
        = StateClosed ∧
      (calls (initBreaker 0)
        ([callAt 1 errExec, callAt 2 okExec, callAt 3 errExec] ++ [callAt 4 errExec])).state
        = StateOpen :=
  ⟨(failTrip_opens_at_threshold (initBreaker 0) 3 (by decide) rfl rfl).1
      [callAt 1 errExec, callAt 2 okExec, callAt 3 errExec] (by decide) (by decide),
    ((failTrip_opens_at_threshold (initBreaker 0) 3 (by decide) rfl rfl).2
      [callAt 1 errExec, callAt 2 okExec, callAt 3 errExec] (callAt 4 errExec)
      (by decide) rfl (by decide)).2⟩

/-! ### Trial calls of a half-open breaker -/

/-- A call that returned a nil error was admitted and its operation
succeeded. -/
theorem admitted_of_nilError (b : ServiceBreaker) (ts : CallTimes) (exec : Outcome)
    (h : (b.Call ts exec).2.nilError = true) :
    (b.beforeCall ts.tBefore ts.tBeforeCS).2 = none ∧ exec.success = true := by
  cases hb : (b.beforeCall ts.tBefore ts.tBeforeCS).2 with
  | some e =>
    rw [Call_rejected b ts exec e hb] at h
    simp [CallResult.nilError] at h
  | none =>
    rw [Call_admitted b ts exec hb] at h
    refine ⟨rfl, ?_⟩
    cases exec with
    | ret result err =>
      cases err with
      | none => rfl
      | some e => simp [Outcome.toResult, CallResult.nilError] at h
    | panic v => simp [Outcome.toResult, CallResult.nilError] at h

theorem inc64_zero : inc64 0 = 1 := by decide

/-- The accounting `afterCall` keeps `halfMaxCalls`. -/
theorem afterCall_halfMaxCalls (b : ServiceBreaker) (success : Bool) (now clock : Time) :
    (b.afterCall success now clock).halfMaxCalls = b.halfMaxCalls := by
  cases success
  · cases hs : b.state
    · rw [afterCall_false_closed b now clock hs]
      split_ifs
      · exact (changeState_frame _ _ _ _).2.2.2.2.1
      · rfl
    · rw [afterCall_false_open b now clock hs]
    · rw [afterCall_false_halfOpen b now clock hs]
      exact (changeState_frame _ _ _ _).2.2.2.2.1
  · rw [afterCall_true]
    split_ifs
    · exact (changeState_frame _ _ _ _).2.2.2.2.1
    · rfl

/-- The accounting `afterCall` never enters half-open: if the breaker is half-open after the
accounting, it was so before, the call succeeded, the streak is still below
`halfMaxCalls`, and only `OnSuccess` touched the metrics. -/
theorem afterCall_halfOpen_imp (b : ServiceBreaker) (success : Bool) (now clock : Time)
    (h : (b.afterCall success now clock).state = StateHalfOpen) :
    b.state = StateHalfOpen ∧ success = true ∧
      inc64 b.metrics.ConsecutiveSuccess < b.halfMaxCalls ∧
      (b.afterCall success now clock).metrics = b.metrics.OnSuccess := by
  cases success
  · exfalso
    cases hs : b.state
    · rw [afterCall_false_closed b now clock hs] at h
      split_ifs at h
      · rw [(changeState_frame _ _ _ _).1] at h
        exact State.noConfusion h
      · simp [hs] at h
    · rw [afterCall_false_open b now clock hs] at h
      simp [hs] at h
    · rw [afterCall_false_halfOpen b now clock hs] at h
      rw [(changeState_frame _ _ _ _).1] at h
      exact State.noConfusion h
  · rw [afterCall_true] at h ⊢
    split_ifs at h ⊢ with hc
    · rw [(changeState_frame _ _ _ _).1] at h
      exact State.noConfusion h
    · have hs : b.state = StateHalfOpen := h
      refine ⟨hs, rfl, ?_, rfl⟩
      by_contra hlt
      exact hc ⟨hs, Nat.le_of_not_lt hlt⟩

/-- A successful trial call that leaves the streak below `halfMaxCalls`. -/
theorem trial_success_below (b : ServiceBreaker) (now clock : Time)
    (hN : b.halfMaxCalls < U64) (hs : b.state = StateHalfOpen)
    (hlt : b.metrics.ConsecutiveSuccess + 1 < b.halfMaxCalls) :
    (b.invoke.afterCall true now clock).state = StateHalfOpen ∧
      (b.invoke.afterCall true now clock).halfMaxCalls = b.halfMaxCalls ∧
      (b.invoke.afterCall true now clock).metrics.ConsecutiveSuccess
        = b.metrics.ConsecutiveSuccess + 1 := by
  rw [afterCall_true]
  have hinc : inc64 b.metrics.ConsecutiveSuccess = b.metrics.ConsecutiveSuccess + 1 :=
    inc64_of_lt _ (by omega)
  have hno : ¬ (b.invoke.state = StateHalfOpen ∧
      inc64 b.invoke.metrics.ConsecutiveSuccess ≥ b.invoke.halfMaxCalls) := by
    simp only [invoke_metrics, invoke_halfMaxCalls, Metrics.OnCall, hinc]
    omega
  rw [if_neg hno]
  simp [hs, Metrics.OnSuccess, Metrics.OnCall, hinc]

/-- A successful trial call that brings the streak to `halfMaxCalls`. -/
theorem trial_success_reach (b : ServiceBreaker) (now clock : Time)
    (hs : b.state = StateHalfOpen)
    (h64 : b.metrics.ConsecutiveSuccess + 1 < U64)
    (hge : b.halfMaxCalls ≤ b.metrics.ConsecutiveSuccess + 1) :
    (b.invoke.afterCall true now clock).state = StateClosed ∧
      (b.invoke.afterCall true now clock).metrics.CountAll = 0 ∧
      (b.invoke.afterCall true now clock).metrics.CountSuccess = 0 ∧
      (b.invoke.afterCall true now clock).metrics.CountFail = 0 ∧
      (b.invoke.afterCall true now clock).metrics.ConsecutiveSuccess = 0 ∧
      (b.invoke.afterCall true now clock).metrics.ConsecutiveFail = 0 := by
  rw [afterCall_true]
  have hinc : inc64 b.metrics.ConsecutiveSuccess = b.metrics.ConsecutiveSuccess + 1 :=
    inc64_of_lt _ h64
  have hyes : b.invoke.state = StateHalfOpen ∧
      inc64 b.invoke.metrics.ConsecutiveSuccess ≥ b.invoke.halfMaxCalls := by
    simp only [invoke_state, invoke_metrics, invoke_halfMaxCalls, Metrics.OnCall, hinc]
    exact ⟨hs, hge⟩
  rw [if_pos hyes]
  have hne : ({ b.invoke with metrics := b.invoke.metrics.OnSuccess } : ServiceBreaker).state
      ≠ StateClosed := by simp [hs]
  have h1 := changeState_frame { b.invoke with metrics := b.invoke.metrics.OnSuccess }
    StateClosed now clock
  have h2 := changeState_counters _ StateClosed now clock hne
  exact ⟨h1.1, h2.2⟩

theorem halfOpen_success_below (b : ServiceBreaker) (ts : CallTimes) (exec : Outcome)
    (hN : b.halfMaxCalls < U64) (hs : b.state = StateHalfOpen)
    (hadm : (b.beforeCall ts.tBefore ts.tBeforeCS).2 = none) (hok : exec.success = true)
    (hlt : b.metrics.ConsecutiveSuccess + 1 < b.halfMaxCalls) :
    (b.Call ts exec).1.state = StateHalfOpen ∧
      (b.Call ts exec).1.halfMaxCalls = b.halfMaxCalls ∧
      (b.Call ts exec).1.metrics.ConsecutiveSuccess = b.metrics.ConsecutiveSuccess + 1 := by
  rw [Call_admitted b ts exec hadm, beforeCall_halfOpen b _ _ hs, hok]
  exact trial_success_below b _ _ hN hs hlt

theorem halfOpen_success_reach (b : ServiceBreaker) (ts : CallTimes) (exec : Outcome)
    (hN : b.halfMaxCalls < U64) (hs : b.state = StateHalfOpen)
    (hadm : (b.beforeCall ts.tBefore ts.tBeforeCS).2 = none) (hok : exec.success = true)
    (heq : b.metrics.ConsecutiveSuccess + 1 = b.halfMaxCalls) :
    (b.Call ts exec).1.state = StateClosed ∧
      (b.Call ts exec).1.metrics.CountAll = 0 ∧
      (b.Call ts exec).1.metrics.CountSuccess = 0 ∧
      (b.Call ts exec).1.metrics.CountFail = 0 ∧
      (b.Call ts exec).1.metrics.ConsecutiveSuccess = 0 ∧
      (b.Call ts exec).1.metrics.ConsecutiveFail = 0 := by
  rw [Call_admitted b ts exec hadm, beforeCall_halfOpen b _ _ hs, hok]
  exact trial_success_reach b _ _ hs (by omega) (by omega)

/-- On an open breaker an admitted call has moved the breaker to half-open,
with fresh counters. -/
theorem beforeCall_open_admitted (b : ServiceBreaker) (now clock : Time)
    (hs : b.state = StateOpen) (hadm : (b.beforeCall now clock).2 = none) :
    (b.beforeCall now clock).1 = b.changeState StateHalfOpen now clock := by
  unfold beforeCall at hadm ⊢
  simp only [hs] at hadm ⊢
  split_ifs at hadm ⊢
  rfl

/-- The call that enters half-open, when its operation succeeds. -/
theorem open_call_success (b : ServiceBreaker) (ts : CallTimes) (exec : Outcome)
    (hs : b.state = StateOpen)
    (hadm : (b.beforeCall ts.tBefore ts.tBeforeCS).2 = none) (hok : exec.success = true) :
    (b.Call ts exec).1.halfMaxCalls = b.halfMaxCalls ∧
      (1 < b.halfMaxCalls → b.halfMaxCalls < U64 →
        (b.Call ts exec).1.state = StateHalfOpen ∧
        (b.Call ts exec).1.metrics.ConsecutiveSuccess = 1) ∧
      (b.halfMaxCalls ≤ 1 →
        (b.Call ts exec).1.state = StateClosed ∧
        (b.Call ts exec).1.metrics.CountAll = 0 ∧
        (b.Call ts exec).1.metrics.CountSuccess = 0 ∧
        (b.Call ts exec).1.metrics.CountFail = 0 ∧
        (b.Call ts exec).1.metrics.ConsecutiveSuccess = 0 ∧
        (b.Call ts exec).1.metrics.ConsecutiveFail = 0) := by
  rw [Call_admitted b ts exec hadm, beforeCall_open_admitted b _ _ hs hadm, hok]
  have hf := changeState_frame b StateHalfOpen ts.tBefore ts.tBeforeCS
  have hc := changeState_counters b StateHalfOpen ts.tBefore ts.tBeforeCS (by simp [hs])
  refine ⟨?_, ?_, ?_⟩
  · rw [afterCall_halfMaxCalls]
    exact hf.2.2.2.2.1
  · intro h1 hN
    have := trial_success_below (b.changeState StateHalfOpen ts.tBefore ts.tBeforeCS)
      ts.tAfter ts.tAfterCS (by rw [hf.2.2.2.2.1]; exact hN) hf.1
      (by rw [hf.2.2.2.2.1, hc.2.2.2.2.1]; exact h1)
    rw [hc.2.2.2.2.1] at this
    exact ⟨this.1, this.2.2⟩
  · intro h1
    exact trial_success_reach (b.changeState StateHalfOpen ts.tBefore ts.tBeforeCS)
      ts.tAfter ts.tAfterCS hf.1 (by rw [hc.2.2.2.2.1]; decide)
      (by rw [hf.2.2.2.2.1, hc.2.2.2.2.1]; exact h1)

/-- Successful trial calls in sequence, by induction on the sequence. -/
theorem calls_halfOpen_success :
    ∀ (cs : List CallInput) (b : ServiceBreaker), b.halfMaxCalls < U64 →
      b.state = StateHalfOpen → b.metrics.ConsecutiveSuccess < b.halfMaxCalls →
      (∀ r ∈ callResults b cs, r.nilError = true) →
      (cs.length < b.halfMaxCalls - b.metrics.ConsecutiveSuccess →
          (calls b cs).state = StateHalfOpen) ∧
        (cs.length = b.halfMaxCalls - b.metrics.ConsecutiveSuccess →
          (calls b cs).state = StateClosed ∧
          (calls b cs).metrics.CountAll = 0 ∧
          (calls b cs).metrics.CountSuccess = 0 ∧
          (calls b cs).metrics.CountFail = 0 ∧
          (calls b cs).metrics.ConsecutiveSuccess = 0 ∧
          (calls b cs).metrics.ConsecutiveFail = 0) := by
  intro cs
  induction cs with
  | nil =>
    intro b _ hs hk _
    refine ⟨fun _ => hs, fun h => ?_⟩
    simp only [List.length_nil] at h
    omega
  | cons c cs ih =>
    intro b hN hs hk hres
    simp only [callResults, List.mem_cons, forall_eq_or_imp] at hres
    obtain ⟨hadm, hok⟩ := admitted_of_nilError b c.1 c.2 hres.1
    simp only [calls, List.length_cons]
    by_cases hlt : b.metrics.ConsecutiveSuccess + 1 < b.halfMaxCalls
    · obtain ⟨h1, h2, h3⟩ := halfOpen_success_below b c.1 c.2 hN hs hadm hok hlt
      have := ih (b.Call c.1 c.2).1 (by rw [h2]; exact hN) h1 (by rw [h2, h3]; exact hlt)
        hres.2
      rw [h2, h3] at this
      exact ⟨fun h => this.1 (by omega), fun h => this.2 (by omega)⟩
    · have heq : b.metrics.ConsecutiveSuccess + 1 = b.halfMaxCalls := by omega
      have hfin := halfOpen_success_reach b c.1 c.2 hN hs hadm hok heq
      refine ⟨fun h => by omega, fun h => ?_⟩
      have hnil : cs = [] := List.eq_nil_of_length_eq_zero (by omega)
      subst hnil
      exact hfin

/-- C4.  A run of successful calls on a breaker with `halfMaxCalls = N` (a
`uint64`): every call of `cs` is admitted and its operation returns a nil
error.  First part: if the breaker is half-open with `ConsecutiveSuccess = k`
and `k < N`, then it is still half-open after fewer than `N - k` such calls,
and after `N - k` of them it is closed with `CountAll`, `CountSuccess`,
`CountFail`, `ConsecutiveSuccess` and `ConsecutiveFail` all zero.  Second
part: if the breaker is open, so that the first call of the run is the one
that enters half-open, and `N >= 1`, then after `N` such calls it is closed
with the five counters zero. -/
theorem halfopen_successes_close (b : ServiceBreaker) (cs : List CallInput)
    (hN : b.halfMaxCalls < U64)
    (hres : ∀ r ∈ callResults b cs, r.nilError = true) :
    (b.state = StateHalfOpen → b.metrics.ConsecutiveSuccess < b.halfMaxCalls →
        (cs.length < b.halfMaxCalls - b.metrics.ConsecutiveSuccess →
          (calls b cs).state = StateHalfOpen) ∧
        (cs.length = b.halfMaxCalls - b.metrics.ConsecutiveSuccess →
          (calls b cs).state = StateClosed ∧
          (calls b cs).metrics.CountAll = 0 ∧
          (calls b cs).metrics.CountSuccess = 0 ∧
          (calls b cs).metrics.CountFail = 0 ∧
          (calls b cs).metrics.ConsecutiveSuccess = 0 ∧
          (calls b cs).metrics.ConsecutiveFail = 0)) ∧
      (b.state = StateOpen → 1 ≤ b.halfMaxCalls → cs.length = b.halfMaxCalls →
        (calls b cs).state = StateClosed ∧
        (calls b cs).metrics.CountAll = 0 ∧
        (calls b cs).metrics.CountSuccess = 0 ∧
        (calls b cs).metrics.CountFail = 0 ∧
        (calls b cs).metrics.ConsecutiveSuccess = 0 ∧
        (calls b cs).metrics.ConsecutiveFail = 0) := by
  refine ⟨fun hs hk => calls_halfOpen_success cs b hN hs hk hres, fun hs h1 hlen => ?_⟩
  cases cs with
  | nil => simp only [List.length_nil] at hlen; omega
  | cons c cs =>
    simp only [callResults, List.mem_cons, forall_eq_or_imp] at hres
    obtain ⟨hadm, hok⟩ := admitted_of_nilError b c.1 c.2 hres.1
    obtain ⟨h2, h3, h4⟩ := open_call_success b c.1 c.2 hs hadm hok
    simp only [calls, List.length_cons] at hlen ⊢
    by_cases hone : 1 < b.halfMaxCalls
    · obtain ⟨h5, h6⟩ := h3 hone hN
      have := (calls_halfOpen_success cs (b.Call c.1 c.2).1 (by rw [h2]; exact hN) h5
        (by rw [h2, h6]; exact hone) hres.2).2
      rw [h2, h6] at this
      exact this (by omega)
    · have hnil : cs = [] := List.eq_nil_of_length_eq_zero (by omega)
      subst hnil
      exact h4 (by omega)

/-- Witness of C4, with `N = 3` as in the test.  The test breaker, opened by
hand at time 100, is called after the timeout: after the call that enters
half-open and one more success it is half-open, after the third success it is
closed with all counters zero; and the same three calls made from the open
breaker close it. -/
theorem halfopen_successes_close_witness :
    enteredBreaker.state = StateHalfOpen ∧
      enteredBreaker.metrics.ConsecutiveSuccess = 1 ∧
      (calls enteredBreaker [callAt (7 * second) okExec]).state = StateHalfOpen ∧
      ((calls enteredBreaker [callAt (7 * second) okExec, callAt (8 * second) okExec]).state
          = StateClosed ∧
        (calls enteredBreaker
          [callAt (7 * second) okExec, callAt (8 * second) okExec]).metrics.CountAll = 0 ∧
        (calls enteredBreaker
          [callAt (7 * second) okExec, callAt (8 * second) okExec]).metrics.CountSuccess = 0 ∧
        (calls enteredBreaker
          [callAt (7 * second) okExec, callAt (8 * second) okExec]).metrics.CountFail = 0 ∧
        (calls enteredBreaker
          [callAt (7 * second) okExec, callAt (8 * second) okExec]).metrics.ConsecutiveSuccess
          = 0 ∧
        (calls enteredBreaker
          [callAt (7 * second) okExec, callAt (8 * second) okExec]).metrics.ConsecutiveFail
          = 0) ∧
      (calls openedBreaker [callAt (7 * second) okExec, callAt (8 * second) okExec,
        callAt (9 * second) okExec]).state = StateClosed :=
  ⟨by decide, by decide,
    ((halfopen_successes_close enteredBreaker [callAt (7 * second) okExec] (by decide)
      (by decide)).1 (by decide) (by decide)).1 (by decide),
    ((halfopen_successes_close enteredBreaker
      [callAt (7 * second) okExec, callAt (8 * second) okExec] (by decide)
      (by decide)).1 (by decide) (by decide)).2 (by decide),
    ((halfopen_successes_close openedBreaker
      [callAt (7 * second) okExec, callAt (8 * second) okExec, callAt (9 * second) okExec]
      (by decide) (by decide)).2 (by decide) (by decide) (by decide)).1⟩

/-! ### Half-open episodes in sequential executions -/

theorem beforeCall_halfMaxCalls (b : ServiceBreaker) (now clock : Time) :
    (b.beforeCall now clock).1.halfMaxCalls = b.halfMaxCalls := by
  unfold beforeCall
  cases hs : b.state <;> simp only [] <;> split_ifs <;>
    first
      | rfl
      | exact (changeState_frame _ _ _ _).2.2.2.2.1
      | exact (nextWindow_frame _ _).2.2.2.2.1

/-- When `beforeCall` moves the breaker into half-open the counters are
fresh. -/
theorem beforeCall_enter (b : ServiceBreaker) (now clock : Time)
    (h1 : (b.beforeCall now clock).1.state = StateHalfOpen) (h0 : b.state ≠ StateHalfOpen) :
    (b.beforeCall now clock).1.metrics.CountAll = 0 ∧
      (b.beforeCall now clock).1.metrics.ConsecutiveSuccess = 0 := by
  unfold beforeCall at h1 ⊢
  cases hs : b.state
  · simp only [hs] at h1 ⊢
    split_ifs at h1 ⊢
    · rw [(nextWindow_frame _ _).1, hs] at h1
      exact State.noConfusion h1
    · rw [hs] at h1
      exact State.noConfusion h1
  · simp only [hs] at h1 ⊢
    split_ifs at h1 ⊢
    · have hc := changeState_counters b StateHalfOpen now clock (by simp [hs])
      exact ⟨hc.2.1, hc.2.2.2.2.1⟩
    · rw [hs] at h1
      exact State.noConfusion h1
  · exact absurd hs h0

/-- The error `ErrTooManyCalls` is returned exactly on a half-open breaker
whose `CountAll` has reached `halfMaxCalls`. -/
theorem beforeCall_tooMany_iff (b : ServiceBreaker) (now clock : Time) :
    (b.beforeCall now clock).2 = some ErrTooManyCalls ↔
      (b.state = StateHalfOpen ∧ b.metrics.CountAll ≥ b.halfMaxCalls) := by
  unfold beforeCall
  cases hs : b.state <;> simp only [] <;> split_ifs <;> simp_all

theorem OpenBreaker_frame (b : ServiceBreaker) (now clock : Time) :
    (b.OpenBreaker now clock).state = StateOpen ∧
      (b.OpenBreaker now clock).halfMaxCalls = b.halfMaxCalls := by
  unfold OpenBreaker
  split_ifs with h
  · exact ⟨h, rfl⟩
  · exact ⟨(changeState_frame _ _ _ _).1, (changeState_frame _ _ _ _).2.2.2.2.1⟩

theorem CloseBreaker_frame (b : ServiceBreaker) (now clock : Time) :
    (b.CloseBreaker now clock).state = StateClosed ∧
      (b.CloseBreaker now clock).halfMaxCalls = b.halfMaxCalls := by
  unfold CloseBreaker
  split_ifs with h
  · exact ⟨h, rfl⟩
  · exact ⟨(changeState_frame _ _ _ _).1, (changeState_frame _ _ _ _).2.2.2.2.1⟩

/-- Every public operation keeps the invariant. -/
theorem EpisodeInv_step (N : Nat) (h1 : 1 ≤ N) (hN : N < U64) (b : ServiceBreaker) (g : Nat)
    (op : Op) (hinv : EpisodeInv N b g) : EpisodeInv N (step b op) (episodeStep b g op) := by
  obtain ⟨hmax, hg, hhalf⟩ := hinv
  cases op with
  | openBreaker now clock =>
    have hf := OpenBreaker_frame b now clock
    refine ⟨by rw [step, hf.2]; exact hmax, by simpa [episodeStep, invokesHalfOpen] using hg, ?_⟩
    intro h
    rw [step, hf.1] at h
    exact State.noConfusion h
  | closeBreaker now clock =>
    have hf := CloseBreaker_frame b now clock
    refine ⟨by rw [step, hf.2]; exact hmax, by simpa [episodeStep, invokesHalfOpen] using hg, ?_⟩
    intro h
    rw [step, hf.1] at h
    exact State.noConfusion h
  | call ts exec =>
    cases hadm : (b.beforeCall ts.tBefore ts.tBeforeCS).2 with
    | some e =>
      have hstep : step b (Op.call ts exec) = b := by
        rw [step, Call_rejected b ts exec e hadm]
      have hep : episodeStep b g (Op.call ts exec) = g := by
        simp [episodeStep, invokesHalfOpen, hadm]
      rw [hstep, hep]
      exact ⟨hmax, hg, hhalf⟩
    | none =>
      have hstep : step b (Op.call ts exec) =
          (b.beforeCall ts.tBefore ts.tBeforeCS).1.invoke.afterCall exec.success
            ts.tAfter ts.tAfterCS := by
        rw [step, Call_admitted b ts exec hadm]
      have hmax1 : (b.beforeCall ts.tBefore ts.tBeforeCS).1.halfMaxCalls = N := by
        rw [beforeCall_halfMaxCalls]; exact hmax
      rw [hstep]
      by_cases hb1 : (b.beforeCall ts.tBefore ts.tBeforeCS).1.state = StateHalfOpen
      · by_cases hb : b.state = StateHalfOpen
        · have hep : episodeStep b g (Op.call ts exec) = g + 1 := by
            simp [episodeStep, invokesHalfOpen, hadm, hb1, hb]
          obtain ⟨hca, hcs, hlt⟩ := hhalf hb
          rw [hep]
          refine ⟨by rw [afterCall_halfMaxCalls]; exact hmax1, by omega, ?_⟩
          intro h
          obtain ⟨-, -, h3, h4⟩ := afterCall_halfOpen_imp _ _ _ _ h
          rw [h4]
          rw [beforeCall_halfOpen b _ _ hb] at h3 ⊢
          have hinc : inc64 g = g + 1 := inc64_of_lt _ (by omega)
          simp only [invoke_metrics, invoke_halfMaxCalls, Metrics.OnCall, Metrics.OnSuccess,
            hca, hcs, hinc, hmax] at h3 ⊢
          exact ⟨trivial, trivial, h3⟩
        · have hep : episodeStep b g (Op.call ts exec) = 1 := by
            simp [episodeStep, invokesHalfOpen, hadm, hb1, hb]
          obtain ⟨hca, hcs⟩ := beforeCall_enter b _ _ hb1 hb
          rw [hep]
          refine ⟨by rw [afterCall_halfMaxCalls]; exact hmax1, h1, ?_⟩
          intro h
          obtain ⟨-, -, h3, h4⟩ := afterCall_halfOpen_imp _ _ _ _ h
          rw [h4]
          simp only [invoke_metrics, invoke_halfMaxCalls, Metrics.OnCall, Metrics.OnSuccess,
            hca, hcs, inc64_zero, hmax1] at h3 ⊢
          exact ⟨trivial, trivial, h3⟩
      · have hep : episodeStep b g (Op.call ts exec) = g := by
          simp [episodeStep, invokesHalfOpen, hadm, hb1]
        rw [hep]
        refine ⟨by rw [afterCall_halfMaxCalls]; exact hmax1, hg, ?_⟩
        intro h
        exact absurd (afterCall_halfOpen_imp _ _ _ _ h).1 hb1

/-- The invariant holds along every sequential execution. -/
theorem EpisodeInv_run (N : Nat) (h1 : 1 ≤ N) (hN : N < U64) :
    ∀ (ops : List Op) (b : ServiceBreaker) (g : Nat), EpisodeInv N b g →
      EpisodeInv N (run b ops) (episodeCalls b g ops) := by
  intro ops
  induction ops with
  | nil => intro b g h; exact h
  | cons op ops ih =>
    intro b g h
    exact ih _ _ (EpisodeInv_step N h1 hN b g op h)

/-- A breaker fresh from the constructor is closed and has the configured,
positive `halfMaxCalls`. -/
theorem NewServiceBreaker_ok (op : BreakerOption) (now : Time) (b0 : ServiceBreaker)
    (h : NewServiceBreaker op now = .ok b0) :
    b0.state = StateClosed ∧ b0.halfMaxCalls = op.HalfMaxCalls ∧ 1 ≤ op.HalfMaxCalls := by
  unfold NewServiceBreaker at h
  split_ifs at h with hc
  injection h with h
  subst h
  refine ⟨?_, ?_, ?_⟩
  · rw [(nextWindow_frame _ _).1]
  · rw [(nextWindow_frame _ _).2.2.2.2.1]
  · omega

theorem EpisodeInv_new (op : BreakerOption) (now : Time) (b0 : ServiceBreaker)
    (h : NewServiceBreaker op now = .ok b0) : EpisodeInv op.HalfMaxCalls b0 0 := by
  obtain ⟨hs, hm, _⟩ := NewServiceBreaker_ok op now b0 h
  refine ⟨hm, Nat.zero_le _, ?_⟩
  intro h
  rw [hs] at h
  exact State.noConfusion h

/-- C6.  Take a breaker built by `NewServiceBreaker` (with `HalfMaxCalls` a
`uint64`) and any sequence of `Call`, `OpenBreaker` and `CloseBreaker`, each
completing before the next starts.  At every point of the execution the
number of invocations of the wrapped operation made in the most recent
half-open episode, counted from the call that moved the breaker into
`StateHalfOpen`, is at most `halfMaxCalls`. -/
theorem halfopen_episode_budget (op : BreakerOption) (now : Time) (b0 : ServiceBreaker)
    (ops : List Op) (hnew : NewServiceBreaker op now = .ok b0)
    (hN : op.HalfMaxCalls < U64) :
    episodeCalls b0 0 ops ≤ b0.halfMaxCalls ∧ b0.halfMaxCalls = op.HalfMaxCalls := by
  obtain ⟨_, hm, h1⟩ := NewServiceBreaker_ok op now b0 hnew
  have := EpisodeInv_run op.HalfMaxCalls h1 hN ops b0 0 (EpisodeInv_new op now b0 hnew)
  rw [hm]
  exact ⟨this.2.1, rfl⟩

/-- Witness of C6: the test breaker, opened by hand and then called three
times after the timeout, and once more.  The episode has three invocations,
which is `halfMaxCalls`; the fourth call does not belong to it. -/
theorem halfopen_episode_budget_witness :
    (episodeCalls (initBreaker 0) 0 (trialOps ++ [opAt (10 * second) okExec])
        ≤ (initBreaker 0).halfMaxCalls ∧
      (initBreaker 0).halfMaxCalls = initOption.HalfMaxCalls) ∧
      episodeCalls (initBreaker 0) 0 (trialOps ++ [opAt (10 * second) okExec]) = 3 :=
  ⟨halfopen_episode_budget initOption 0 (initBreaker 0)
      (trialOps ++ [opAt (10 * second) okExec]) (initBreaker_eq 0) (by decide),
    by decide⟩

/-- Counterexample to C7 as stated, with `halfMaxCalls = 3`.  The test breaker
is opened by hand at time 100 and called after the timeout.  The first call
enters half-open; three calls are admitted one after the other in that
episode and succeed; the breaker is then closed, and the fourth call is
admitted: its operation runs and `Call` returns the result of the operation,
not `ErrTooManyCalls`. -/
theorem fourth_sequential_call_admitted :
    openedBreaker.halfMaxCalls = 3 ∧
      (calls openedBreaker [callAt (7 * second) okExec]).state = StateHalfOpen ∧
      (calls openedBreaker [callAt (7 * second) okExec, callAt (8 * second) okExec]).state
        = StateHalfOpen ∧
      (calls openedBreaker [callAt (7 * second) okExec, callAt (8 * second) okExec,
        callAt (9 * second) okExec]).state = StateClosed ∧
      callResults openedBreaker [callAt (7 * second) okExec, callAt (8 * second) okExec,
          callAt (9 * second) okExec, callAt (10 * second) (Outcome.ret (some 42) none)]
        = [CallResult.ret none none, CallResult.ret none none, CallResult.ret none none,
            CallResult.ret (some 42) none] ∧
      ((calls openedBreaker [callAt (7 * second) okExec, callAt (8 * second) okExec,
          callAt (9 * second) okExec]).Call ⟨10 * second, 0, 0, 0⟩
            (Outcome.ret (some 42) none)).2
        ≠ CallResult.ret none (some ErrTooManyCalls) := by
  decide

/-- C7, amended.  For a breaker built by `NewServiceBreaker` (with
`HalfMaxCalls` a `uint64`) and driven by operations that each complete before
the next starts: once `halfMaxCalls` calls have been admitted in a half-open
episode the breaker is no longer half-open, and the admission check never
answers `ErrTooManyCalls`.  That error is what `Call` returns, changing
nothing, on any breaker that is half-open with `CountAll >= halfMaxCalls`,
which takes admitted calls that are not accounted yet. -/
theorem tooManyCalls_needs_calls_in_flight (op : BreakerOption) (now : Time)
    (b0 : ServiceBreaker) (ops : List Op) (hnew : NewServiceBreaker op now = .ok b0)
    (hN : op.HalfMaxCalls < U64) :
    (episodeCalls b0 0 ops = b0.halfMaxCalls → (run b0 ops).state ≠ StateHalfOpen) ∧
      (∀ t clock : Time, ((run b0 ops).beforeCall t clock).2 ≠ some ErrTooManyCalls) ∧
      (∀ (b : ServiceBreaker) (ts : CallTimes) (exec : Outcome),
        b.state = StateHalfOpen → b.metrics.CountAll ≥ b.halfMaxCalls →
        b.Call ts exec = (b, CallResult.ret none (some ErrTooManyCalls))) := by
  obtain ⟨_, hm, h1⟩ := NewServiceBreaker_ok op now b0 hnew
  obtain ⟨hmax, _, hhalf⟩ :=
    EpisodeInv_run op.HalfMaxCalls h1 hN ops b0 0 (EpisodeInv_new op now b0 hnew)
  refine ⟨?_, ?_, ?_⟩
  · intro hg hs
    have := (hhalf hs).2.2
    omega
  · intro t clock h
    obtain ⟨hs, hge⟩ := (beforeCall_tooMany_iff _ t clock).1 h
    obtain ⟨hca, _, hlt⟩ := hhalf hs
    omega
  · intro b ts exec hs hge
    exact Call_rejected b ts exec ErrTooManyCalls
      ((beforeCall_tooMany_iff b _ _).2 ⟨hs, hge⟩)

/-- Witness of C7 amended: after the three trial calls of `trialOps` the test
breaker is not half-open and a further admission check does not answer
`ErrTooManyCalls`; the half-open breaker with three calls admitted and two
accounted does. -/
theorem tooManyCalls_needs_calls_in_flight_witness :
    episodeCalls (initBreaker 0) 0 trialOps = (initBreaker 0).halfMaxCalls ∧
      (run (initBreaker 0) trialOps).state ≠ StateHalfOpen ∧
      ((run (initBreaker 0) trialOps).beforeCall (10 * second) (10 * second)).2
        ≠ some ErrTooManyCalls ∧
      fullHalfOpenBreaker.Call ⟨10, 11, 12, 13⟩ okExec
        = (fullHalfOpenBreaker, CallResult.ret none (some ErrTooManyCalls)) :=
  ⟨by decide,
    (tooManyCalls_needs_calls_in_flight initOption 0 (initBreaker 0) trialOps
      (initBreaker_eq 0) (by decide)).1 (by decide),
    (tooManyCalls_needs_calls_in_flight initOption 0 (initBreaker 0) trialOps
      (initBreaker_eq 0) (by decide)).2.1 (10 * second) (10 * second),
    (tooManyCalls_needs_calls_in_flight initOption 0 (initBreaker 0) trialOps
      (initBreaker_eq 0) (by decide)).2.2 fullHalfOpenBreaker ⟨10, 11, 12, 13⟩ okExec
      rfl (by decide)⟩

/-! ### Construction -/

/-- Counterexample to C11 as stated: with `WindowInterval = 0`, and
`HalfMaxCalls = 3` and `SleepTimeout` of six seconds both positive, the
constructor returns the configuration error. -/
theorem zero_window_rejected :
    zeroWindowOption.WindowInterval = 0 ∧ 0 < zeroWindowOption.HalfMaxCalls ∧
      0 < zeroWindowOption.SleepTimeout ∧
      NewServiceBreaker zeroWindowOption 0 = .error "incomplete options" :=
  ⟨rfl, by decide, by decide, rfl⟩

/-- C11, amended.  `NewServiceBreaker` returns the configuration error
whenever `WindowInterval <= 0` (zero included), `HalfMaxCalls = 0` or
`SleepTimeout <= 0`.  When the three are positive it succeeds and the breaker
starts closed with the window expiry `now + WindowInterval`.  The window
without expiry belongs to a closed breaker whose `windowInterval` is zero,
which the constructor never yields: for such a breaker `nextWindow` sets the
zero time as expiry, and a closed breaker whose expiry is the zero time is
never rotated by the admission check. -/
theorem newServiceBreaker_validation (op : BreakerOption) (now : Time) :
    ((op.WindowInterval ≤ 0 ∨ op.HalfMaxCalls = 0 ∨ op.SleepTimeout ≤ 0) →
        NewServiceBreaker op now = .error "incomplete options") ∧
      (0 < op.WindowInterval → 0 < op.HalfMaxCalls → 0 < op.SleepTimeout →
        ∃ b, NewServiceBreaker op now = .ok b ∧ b.state = StateClosed ∧
          b.windowInterval = op.WindowInterval ∧
          b.metrics.WindowTimeStart = now + op.WindowInterval) ∧
      (∀ (b : ServiceBreaker) (t : Time), b.state = StateClosed → b.windowInterval = 0 →
        (b.nextWindow t).metrics.WindowTimeStart = 0) ∧
      (∀ (b : ServiceBreaker) (t clock : Time), b.state = StateClosed →
        b.metrics.WindowTimeStart = 0 → b.beforeCall t clock = (b, none)) := by
  refine ⟨?_, ?_, ?_, ?_⟩
  · intro h
    unfold NewServiceBreaker
    rw [if_pos h]
  · intro h1 h2 h3
    have hno : ¬ (op.WindowInterval ≤ 0 ∨ op.HalfMaxCalls = 0 ∨ op.SleepTimeout ≤ 0) := by
      rintro (h | h | h)
      · exact absurd h1 (not_lt.mpr h)
      · omega
      · exact absurd h3 (not_lt.mpr h)
    unfold NewServiceBreaker
    rw [if_neg hno]
    refine ⟨_, rfl, ?_, ?_, ?_⟩
    · rw [(nextWindow_frame _ _).1]
    · rw [(nextWindow_frame _ _).2.2.1]
    · unfold nextWindow
      simp only []
      rw [if_neg (ne_of_gt h1)]
  · intro b t hs hw
    unfold nextWindow
    simp only [hs]
    rw [if_pos hw]
  · intro b t clock hs hw
    exact beforeCall_closed b t clock hs (fun h => h.1 hw)

/-- Witness of C11 amended: the options of the test are accepted, and the same
options with a zero `WindowInterval` are rejected. -/
theorem newServiceBreaker_validation_witness :
    NewServiceBreaker zeroWindowOption 0 = .error "incomplete options" ∧
      (∃ b, NewServiceBreaker initOption 7 = .ok b ∧ b.state = StateClosed ∧
        b.windowInterval = initOption.WindowInterval ∧
        b.metrics.WindowTimeStart = 7 + initOption.WindowInterval) ∧
      (noWindowBreaker.nextWindow 9).metrics.WindowTimeStart = 0 ∧
      noWindowBreaker.beforeCall (60 * second) 0 = (noWindowBreaker, none) :=
  ⟨(newServiceBreaker_validation zeroWindowOption 0).1 (Or.inl (le_refl _)),
    (newServiceBreaker_validation initOption 7).2.1 (by decide) (by decide) (by decide),
    (newServiceBreaker_validation initOption 7).2.2.1 noWindowBreaker 9 rfl rfl,
    (newServiceBreaker_validation initOption 7).2.2.2 noWindowBreaker (60 * second) 0 rfl rfl⟩

/-! ### Admission of a closed breaker, manual overrides -/

/-- A closed breaker is admitted by `beforeCall`, window expired or not. -/
theorem beforeCall_closed_admits (b : ServiceBreaker) (now clock : Time)
    (hs : b.state = StateClosed) : (b.beforeCall now clock).2 = none := by
  unfold beforeCall
  simp only [hs]
  split_ifs <;> rfl

/-- C12.  On a closed breaker, whatever the metrics and the time, `Call`
admits the call: `beforeCall` returns no error, the wrapped operation is
invoked exactly once, and `Call` hands on what the operation did, not an error
of the admission. -/
theorem closed_always_admits (b : ServiceBreaker) (ts : CallTimes) (exec : Outcome)
    (hs : b.state = StateClosed) :
    (b.beforeCall ts.tBefore ts.tBeforeCS).2 = none ∧
      (b.Call ts exec).2 = exec.toResult ∧
      (b.Call ts exec).1.trace.count Event.exec = b.trace.count Event.exec + 1 := by
  have h := beforeCall_closed_admits b ts.tBefore ts.tBeforeCS hs
  refine ⟨h, ?_, Call_admit_exec_count b ts exec h⟩
  rw [Call_admitted b ts exec h]

/-- Witness of C12: a closed breaker with nine failures counted, called long
after its window expired. -/
theorem closed_always_admits_witness :
    (busyClosedBreaker.beforeCall (60 * second) 0).2 = none ∧
      (busyClosedBreaker.Call ⟨60 * second, 0, 0, 0⟩ errExec).2 = errExec.toResult ∧
      (busyClosedBreaker.Call ⟨60 * second, 0, 0, 0⟩ errExec).1.trace.count Event.exec
        = busyClosedBreaker.trace.count Event.exec + 1 :=
  closed_always_admits busyClosedBreaker ⟨60 * second, 0, 0, 0⟩ errExec rfl

/-- An open breaker rejects a call made before its timeout. -/
theorem beforeCall_open_early (b : ServiceBreaker) (now clock : Time)
    (hs : b.state = StateOpen) (ht : now < b.stateOpenTime + b.sleepTimeout) :
    (b.beforeCall now clock).2 = some ErrStateOpen := by
  unfold beforeCall
  simp only [hs]
  rw [if_neg (not_lt.mpr ht.le)]

/-- Calls made before the timeout of an open breaker are all rejected and
leave it as it is. -/
theorem calls_open_early :
    ∀ (cs : List CallInput) (b : ServiceBreaker), b.state = StateOpen →
      (∀ c ∈ cs, c.1.tBefore < b.stateOpenTime + b.sleepTimeout) →
      calls b cs = b ∧
        ∀ r ∈ callResults b cs, r = CallResult.ret none (some ErrStateOpen) := by
  intro cs
  induction cs with
  | nil => intro b _ _; exact ⟨rfl, by simp [callResults]⟩
  | cons c cs ih =>
    intro b hs ht
    have hc := Call_rejected b c.1 c.2 ErrStateOpen
      (beforeCall_open_early b _ _ hs (ht c (List.mem_cons_self _ _)))
    simp only [calls, callResults, hc, List.mem_cons, forall_eq_or_imp, true_and]
    exact ih b hs (fun x hx => ht x (List.mem_cons_of_mem _ hx))

/-- C13.  First part: `OpenBreaker` at time `t` on a breaker that is closed or
half-open, whatever its metrics: every call that follows and is made before
`t + sleepTimeout` returns `(nil, ErrStateOpen)`, and the breaker with its
trace stays as `OpenBreaker` left it, so no operation is invoked.  Second
part: `CloseBreaker` on a breaker that is open or half-open: the next call, at
whatever time, is admitted, its operation is invoked once and `Call` hands on
what the operation did. -/
theorem manual_override (b : ServiceBreaker) (t clock : Time) :
    (b.state ≠ StateOpen → ∀ cs : List CallInput,
        (∀ c ∈ cs, c.1.tBefore < t + b.sleepTimeout) →
        calls (b.OpenBreaker t clock) cs = b.OpenBreaker t clock ∧
          ∀ r ∈ callResults (b.OpenBreaker t clock) cs,
            r = CallResult.ret none (some ErrStateOpen)) ∧
      (b.state ≠ StateClosed → ∀ (ts : CallTimes) (exec : Outcome),
        ((b.CloseBreaker t clock).beforeCall ts.tBefore ts.tBeforeCS).2 = none ∧
          ((b.CloseBreaker t clock).Call ts exec).2 = exec.toResult ∧
          ((b.CloseBreaker t clock).Call ts exec).1.trace.count Event.exec
            = (b.CloseBreaker t clock).trace.count Event.exec + 1) := by
  constructor
  · intro hs cs ht
    have hopen : b.OpenBreaker t clock = b.changeState StateOpen t clock := by
      unfold OpenBreaker
      rw [if_neg hs]
    have hf := changeState_frame b StateOpen t clock
    have ho := changeState_openTime b t clock hs
    apply calls_open_early cs _ (by rw [hopen]; exact hf.1)
    intro c hc
    rw [hopen, ho, hf.2.2.2.2.2.1]
    exact ht c hc
  · intro _ ts exec
    have hs := (CloseBreaker_frame b t clock).1
    have h := beforeCall_closed_admits _ ts.tBefore ts.tBeforeCS hs
    refine ⟨h, ?_, Call_admit_exec_count _ ts exec h⟩
    rw [Call_admitted _ ts exec h]

/-- Witness of C13: the test breaker is opened by hand at time 100 and called
twice within the six seconds; the half-open breaker is closed by hand and
called at once. -/
theorem manual_override_witness :
    (calls ((initBreaker 0).OpenBreaker 100 100)
          [callAt second okExec, callAt (5 * second) okExec]
        = (initBreaker 0).OpenBreaker 100 100 ∧
      ∀ r ∈ callResults ((initBreaker 0).OpenBreaker 100 100)
          [callAt second okExec, callAt (5 * second) okExec],
        r = CallResult.ret none (some ErrStateOpen)) ∧
      ((halfOpenBreaker.CloseBreaker 100 100).beforeCall 101 101).2 = none ∧
      ((halfOpenBreaker.CloseBreaker 100 100).Call ⟨101, 101, 101, 101⟩ okExec).2
        = okExec.toResult ∧
      ((halfOpenBreaker.CloseBreaker 100 100).Call ⟨101, 101, 101, 101⟩ okExec).1.trace.count
          Event.exec
        = (halfOpenBreaker.CloseBreaker 100 100).trace.count Event.exec + 1 :=
  ⟨(manual_override (initBreaker 0) 100 100).1 (by decide)
      [callAt second okExec, callAt (5 * second) okExec] (by decide),
    (manual_override halfOpenBreaker 100 100).2 (by decide) ⟨101, 101, 101, 101⟩ okExec⟩

/-! ### Trip strategies -/

theorem roundF64_nonneg (n d : Nat) : 0 ≤ roundF64 n d := by
  unfold roundF64
  split_ifs
  · exact le_refl _
  · simp only []
    positivity

/-- Counterexample to C14 as stated: with rate `0.0` and `minCalls = 0` the
predicate is true on metrics that are all zero. -/
theorem failRate_trips_on_zero_samples :
    zeroMetrics.CountAll = 0 ∧ FailRateTripFunc (.fin 0) 0 zeroMetrics = true := by
  refine ⟨rfl, ?_⟩
  simp [FailRateTripFunc, zeroMetrics, F64.le]

/-- C14, amended.  On metrics with `CountAll = 0` the current rate is taken as
zero, and `FailRateTripFunc rate minCalls` is true exactly when `minCalls = 0`
and `rate <= 0` (a finite rate that is zero or negative, or minus infinity).
So it is false on zero samples whenever `minCalls >= 1`, and also whenever the
rate is positive or not a number. -/
theorem failRate_on_zero_samples (rate : F64) (minCalls : Nat) (m : Metrics)
    (h : m.CountAll = 0) :
    (FailRateTripFunc rate minCalls m = true ↔
        minCalls = 0 ∧ (rate = F64.negInf ∨ ∃ q, rate = F64.fin q ∧ q ≤ 0)) ∧
      (1 ≤ minCalls → FailRateTripFunc rate minCalls m = false) := by
  have hrate : FailRateTripFunc rate minCalls m = (decide (minCalls = 0) && rate.le 0) := by
    simp [FailRateTripFunc, h]
  rw [hrate]
  constructor
  · cases rate <;> simp [F64.le]
  · intro h1
    have : minCalls ≠ 0 := by omega
    simp [this]

/-- Witness of C14 amended: the commented-out options of the test (rate 0.6,
three calls at least) on metrics that are all zero. -/
theorem failRate_on_zero_samples_witness :
    (FailRateTripFunc (F64.fin (5404319552844595 / 9007199254740992)) 3 zeroMetrics = true ↔
        3 = 0 ∧ (F64.fin (5404319552844595 / 9007199254740992) = F64.negInf ∨
          ∃ q, F64.fin (5404319552844595 / 9007199254740992) = F64.fin q ∧ q ≤ 0)) ∧
      (1 ≤ 3 → FailRateTripFunc (F64.fin (5404319552844595 / 9007199254740992)) 3 zeroMetrics
        = false) :=
  failRate_on_zero_samples (F64.fin (5404319552844595 / 9007199254740992)) 3 zeroMetrics rfl

/-- The predicate chosen for the zero value of the trip options is true on all
metrics. -/
theorem zeroTrip_always (m : Metrics) : ChooseTrip zeroTripOption m = true := by
  have h : ChooseTrip zeroTripOption = FailRateTripFunc (.fin 0) 0 := rfl
  rw [h]
  simp only [FailRateTripFunc, F64.le, ge_iff_le, Nat.zero_le, decide_True, Bool.true_and,
    decide_eq_true_eq]
  split_ifs
  · exact roundF64_nonneg _ _
  · exact le_refl _

/-- The admission check of a closed breaker keeps the state and the strategy. -/
theorem beforeCall_closed_frame (b : ServiceBreaker) (now clock : Time)
    (hs : b.state = StateClosed) :
    (b.beforeCall now clock).1.state = StateClosed ∧
      (b.beforeCall now clock).1.tripStrategyFunc = b.tripStrategyFunc := by
  unfold beforeCall
  simp only [hs]
  split_ifs
  · exact ⟨by rw [(nextWindow_frame _ _).1]; exact hs, (nextWindow_frame _ _).2.2.2.1⟩
  · exact ⟨hs, rfl⟩

/-- A successful call leaves a closed breaker closed, with its strategy. -/
theorem closed_success_stays (b : ServiceBreaker) (ts : CallTimes) (exec : Outcome)
    (hs : b.state = StateClosed) (hok : exec.success = true) :
    (b.Call ts exec).1.state = StateClosed ∧
      (b.Call ts exec).1.tripStrategyFunc = b.tripStrategyFunc := by
  obtain ⟨h1, h2⟩ := beforeCall_closed_frame b ts.tBefore ts.tBeforeCS hs
  rw [Call_admitted b ts exec (beforeCall_closed_admits b _ _ hs), hok, afterCall_true]
  rw [if_neg (by simp [h1])]
  exact ⟨h1, h2⟩

/-- A failed call opens a closed breaker whose strategy is true on the metrics
after the failure. -/
theorem closed_failure_opens (b : ServiceBreaker) (ts : CallTimes) (exec : Outcome)
    (hs : b.state = StateClosed) (hf : exec.success = false)
    (htrip : ∀ m, b.tripStrategyFunc m = true) :
    (b.Call ts exec).1.state = StateOpen := by
  obtain ⟨h1, h2⟩ := beforeCall_closed_frame b ts.tBefore ts.tBeforeCS hs
  rw [Call_admitted b ts exec (beforeCall_closed_admits b _ _ hs), hf,
    afterCall_false_closed _ _ _ (by simpa using h1)]
  rw [if_pos (by rw [invoke_tripStrategyFunc, h2]; exact htrip _)]
  exact (changeState_frame _ _ _ _).1

theorem calls_closed_successes :
    ∀ (cs : List CallInput) (b : ServiceBreaker), b.state = StateClosed →
      (∀ x ∈ cs, x.2.success = true) →
      (calls b cs).state = StateClosed ∧
        (calls b cs).tripStrategyFunc = b.tripStrategyFunc := by
  intro cs
  induction cs with
  | nil => intro b hs _; exact ⟨hs, rfl⟩
  | cons c cs ih =>
    intro b hs hok
    obtain ⟨h1, h2⟩ := closed_success_stays b c.1 c.2 hs (hok c (List.mem_cons_self _ _))
    obtain ⟨h3, h4⟩ := ih _ h1 (fun x hx => hok x (List.mem_cons_of_mem _ hx))
    exact ⟨h3, h4.trans h2⟩

theorem NewServiceBreaker_trip (op : BreakerOption) (now : Time) (b0 : ServiceBreaker)
    (h : NewServiceBreaker op now = .ok b0) :
    b0.tripStrategyFunc = ChooseTrip op.TripStrategy := by
  unfold NewServiceBreaker at h
  split_ifs at h with hc
  injection h with h
  subst h
  rw [(nextWindow_frame _ _).2.2.2.1]

/-- C20.  `ChooseTrip` returns the consecutive-failure predicate for
`Strategy = 1`, the failure-count predicate for `Strategy = 2`, and for every
other value of `Strategy` the failure-rate predicate of `FailRate` and
`MinCall`.  `NewServiceBreaker` installs what `ChooseTrip` returns, whatever
the trip options are.  So for a breaker built with the zero value of
`TripStrategyOption`: after any calls that all succeed it is closed, and the
first call that fails opens it. -/
theorem chooseTrip_and_zero_options (op : BreakerOption) (now : Time) (b0 : ServiceBreaker)
    (hnew : NewServiceBreaker op now = .ok b0) :
    (op.TripStrategy.Strategy = 1 →
        ChooseTrip op.TripStrategy
          = ConsecutiveFailTripFunc op.TripStrategy.ConsecutiveFailThreshold) ∧
      (op.TripStrategy.Strategy = 2 →
        ChooseTrip op.TripStrategy = FailTripFunc op.TripStrategy.FailThreshold) ∧
      (op.TripStrategy.Strategy ≠ 1 → op.TripStrategy.Strategy ≠ 2 →
        ChooseTrip op.TripStrategy
          = FailRateTripFunc op.TripStrategy.FailRate op.TripStrategy.MinCall) ∧
      b0.tripStrategyFunc = ChooseTrip op.TripStrategy ∧
      (op.TripStrategy = zeroTripOption → ∀ (cs : List CallInput) (c : CallInput),
        (∀ x ∈ cs, x.2.success = true) → c.2.success = false →
        (calls b0 cs).state = StateClosed ∧ (calls b0 (cs ++ [c])).state = StateOpen) := by
  have htrip := NewServiceBreaker_trip op now b0 hnew
  refine ⟨?_, ?_, ?_, htrip, ?_⟩
  · intro h
    simp [ChooseTrip, h, ConsecutiveFailTrip]
  · intro h
    simp [ChooseTrip, h, ConsecutiveFailTrip, FailTrip]
  · intro h1 h2
    simp [ChooseTrip, h1, h2, ConsecutiveFailTrip, FailTrip]
  · intro hz cs c hok hf
    obtain ⟨h1, h2⟩ := calls_closed_successes cs b0 (NewServiceBreaker_ok op now b0 hnew).1 hok
    refine ⟨h1, ?_⟩
    rw [calls_append]
    apply closed_failure_opens _ _ _ h1 hf
    intro m
    rw [h2, htrip, hz]
    exact zeroTrip_always m

/-- Witness of C20: the options of the test select the failure-count
predicate, those with `Strategy = 1` the consecutive-failure predicate, and
the breaker built with the zero value of the trip options is closed after two
successes and open after the first failure. -/
theorem chooseTrip_and_zero_options_witness :
    ChooseTrip consecOption.TripStrategy
        = ConsecutiveFailTripFunc consecOption.TripStrategy.ConsecutiveFailThreshold ∧
      ChooseTrip initOption.TripStrategy = FailTripFunc initOption.TripStrategy.FailThreshold ∧
      ChooseTrip zeroTripBreakerOption.TripStrategy
        = FailRateTripFunc zeroTripBreakerOption.TripStrategy.FailRate
            zeroTripBreakerOption.TripStrategy.MinCall ∧
      zeroTripBreaker.tripStrategyFunc = ChooseTrip zeroTripBreakerOption.TripStrategy ∧
      (calls zeroTripBreaker [callAt 1 okExec, callAt 2 okExec]).state = StateClosed ∧
      (calls zeroTripBreaker ([callAt 1 okExec, callAt 2 okExec] ++ [callAt 3 errExec])).state
        = StateOpen :=
  ⟨(chooseTrip_and_zero_options consecOption 0 consecBreaker rfl).1 rfl,
    (chooseTrip_and_zero_options initOption 0 (initBreaker 0) rfl).2.1 rfl,
    (chooseTrip_and_zero_options zeroTripBreakerOption 0 zeroTripBreaker rfl).2.2.1
      (by decide) (by decide),
    (chooseTrip_and_zero_options zeroTripBreakerOption 0 zeroTripBreaker rfl).2.2.2.1,
    (chooseTrip_and_zero_options zeroTripBreakerOption 0 zeroTripBreaker rfl).2.2.2.2 rfl
      [callAt 1 okExec, callAt 2 okExec] (callAt 3 errExec) (by decide) rfl⟩

/-! ### The consecutive-failure strategy -/

theorem calls_append_list (xs ys : List CallInput) :
    ∀ b : ServiceBreaker, calls b (xs ++ ys) = calls (calls b xs) ys := by
  induction xs with
  | nil => intro b; rfl
  | cons x xs ih => intro b; exact ih _

theorem inWindow_append_list (b : ServiceBreaker) (xs ys : List CallInput) :
    inWindow b (xs ++ ys) = true ↔ inWindow b xs = true ∧ inWindow b ys = true := by
  simp only [inWindow, List.all_append, Bool.and_eq_true]

theorem trailingFailures_append (cs : List CallInput) (c : CallInput) :
    trailingFailures (cs ++ [c])
      = if c.2.success = true then 0 else trailingFailures cs + 1 := by
  unfold trailingFailures
  rw [List.reverse_append, List.reverse_singleton, List.singleton_append, List.takeWhile_cons]
  cases c.2.success <;> simp

/-- A successful call inside the window of a closed breaker resets the streak
of failures. -/
theorem consec_success (b : ServiceBreaker) (ts : CallTimes) (exec : Outcome)
    (hs : b.state = StateClosed)
    (hw : ¬ (b.metrics.WindowTimeStart ≠ 0 ∧ b.metrics.WindowTimeStart < ts.tBefore))
    (hok : exec.success = true) :
    (b.Call ts exec).1.state = StateClosed ∧
      (b.Call ts exec).1.tripStrategyFunc = b.tripStrategyFunc ∧
      (b.Call ts exec).1.metrics.WindowTimeStart = b.metrics.WindowTimeStart ∧
      (b.Call ts exec).1.metrics.ConsecutiveFail = 0 := by
  rw [Call_closed b ts exec hs hw, hok, afterCall_true]
  rw [if_neg (by simp [hs])]
  simp [hs, Metrics.OnSuccess, Metrics.OnCall]

/-- A failed call inside the window of a closed breaker with the
consecutive-failure strategy: it opens the breaker exactly when the streak
reaches the threshold, and otherwise lengthens the streak by one. -/
theorem consec_fail (b : ServiceBreaker) (ts : CallTimes) (exec : Outcome)
    (T : Nat) (hT : T < U64) (hs : b.state = StateClosed)
    (htrip : b.tripStrategyFunc = ConsecutiveFailTripFunc T)
    (hw : ¬ (b.metrics.WindowTimeStart ≠ 0 ∧ b.metrics.WindowTimeStart < ts.tBefore))
    (hf : exec.success = false) (hk : b.metrics.ConsecutiveFail < T) :
    ((b.Call ts exec).1.state = StateOpen ↔ T ≤ b.metrics.ConsecutiveFail + 1) ∧
      (b.metrics.ConsecutiveFail + 1 < T →
        (b.Call ts exec).1.state = StateClosed ∧
        (b.Call ts exec).1.tripStrategyFunc = b.tripStrategyFunc ∧
        (b.Call ts exec).1.metrics.WindowTimeStart = b.metrics.WindowTimeStart ∧
        (b.Call ts exec).1.metrics.ConsecutiveFail = b.metrics.ConsecutiveFail + 1) := by
  rw [Call_closed b ts exec hs hw, hf, afterCall_false_closed _ _ _ (by simpa using hs)]
  have hinc : inc64 b.metrics.ConsecutiveFail = b.metrics.ConsecutiveFail + 1 :=
    inc64_of_lt _ (by omega)
  have hval : b.invoke.tripStrategyFunc b.invoke.metrics.OnFail
      = decide (T ≤ b.metrics.ConsecutiveFail + 1) := by
    simp only [invoke_tripStrategyFunc, invoke_metrics, htrip, ConsecutiveFailTripFunc,
      Metrics.OnFail, Metrics.OnCall, hinc, ge_iff_le]
  rw [hval]
  by_cases hge : T ≤ b.metrics.ConsecutiveFail + 1
  · rw [if_pos (by simpa using hge)]
    refine ⟨⟨fun _ => hge, fun _ => (changeState_frame _ _ _ _).1⟩, fun h => ?_⟩
    omega
  · rw [if_neg (by simpa using hge)]
    refine ⟨⟨fun h => ?_, fun h => absurd h hge⟩, fun _ => ?_⟩
    · simp [hs] at h
    · simp [hs, Metrics.OnFail, Metrics.OnCall, hinc]

/-- While the breaker stays closed inside one window, `ConsecutiveFail` is the
number of failed calls at the end of the sequence, and it is below the
threshold. -/
theorem calls_consec_closed (T : Nat) (hT1 : 1 ≤ T) (hT : T < U64) (b : ServiceBreaker)
    (htrip : b.tripStrategyFunc = ConsecutiveFailTripFunc T)
    (hcf : b.metrics.ConsecutiveFail = 0) :
    ∀ cs : List CallInput, inWindow b cs = true →
      (∀ n, (calls b (cs.take n)).state = StateClosed) →
      (calls b cs).tripStrategyFunc = ConsecutiveFailTripFunc T ∧
        (calls b cs).metrics.WindowTimeStart = b.metrics.WindowTimeStart ∧
        (calls b cs).metrics.ConsecutiveFail = trailingFailures cs ∧
        trailingFailures cs < T := by
  intro cs
  induction cs using List.reverseRecOn with
  | nil =>
    intro _ _
    refine ⟨htrip, rfl, ?_, ?_⟩
    · simpa [calls, trailingFailures] using hcf
    · simp only [trailingFailures, List.reverse_nil, List.takeWhile_nil, List.length_nil]
      omega
  | append_singleton p x ih =>
    intro hw hall
    rw [inWindow_append] at hw
    have hallp : ∀ n, (calls b (p.take n)).state = StateClosed := by
      intro n
      by_cases hn : n ≤ p.length
      · have := hall n
        rwa [List.take_append_of_le_length hn] at this
      · have := hall p.length
        rw [List.take_append_of_le_length (le_refl _), List.take_length] at this
        rwa [List.take_of_length_le (by omega)]
    obtain ⟨h1, h2, h3, h4⟩ := ih hw.1 hallp
    have hsp : (calls b p).state = StateClosed := by
      have := hallp p.length
      rwa [List.take_length] at this
    have hsx : (calls b (p ++ [x])).state = StateClosed := by
      have := hall (p ++ [x]).length
      rwa [List.take_length] at this
    have hwx : ¬ ((calls b p).metrics.WindowTimeStart ≠ 0 ∧
        (calls b p).metrics.WindowTimeStart < x.1.tBefore) := by
      rw [h2]; exact hw.2
    rw [calls_append] at hsx ⊢
    rw [trailingFailures_append]
    cases hx : x.2.success with
    | true =>
      obtain ⟨_, g2, g3, g4⟩ := consec_success (calls b p) x.1 x.2 hsp hwx hx
      simp only [if_true]
      exact ⟨g2.trans h1, g3.trans h2, g4, by omega⟩
    | false =>
      have hk : (calls b p).metrics.ConsecutiveFail < T := by rw [h3]; exact h4
      obtain ⟨g1, g2⟩ := consec_fail (calls b p) x.1 x.2 T hT hsp h1 hwx hx hk
      have hlt : (calls b p).metrics.ConsecutiveFail + 1 < T := by
        by_contra hge
        have := g1.2 (by omega)
        rw [this] at hsx
        exact State.noConfusion hsx
      obtain ⟨_, k2, k3, k4⟩ := g2 hlt
      simp only [Bool.false_eq_true, if_false]
      rw [h3] at k4 hlt
      exact ⟨k2.trans h1, k3.trans h2, k4, hlt⟩

/-- A run of failures that stays below the threshold. -/
theorem calls_consec_failures (T : Nat) (hT : T < U64) :
    ∀ (fs : List CallInput) (b : ServiceBreaker), b.state = StateClosed →
      b.tripStrategyFunc = ConsecutiveFailTripFunc T → inWindow b fs = true →
      (∀ x ∈ fs, x.2.success = false) → b.metrics.ConsecutiveFail + fs.length < T →
      (calls b fs).state = StateClosed ∧
        (calls b fs).tripStrategyFunc = ConsecutiveFailTripFunc T ∧
        (calls b fs).metrics.WindowTimeStart = b.metrics.WindowTimeStart ∧
        (calls b fs).metrics.ConsecutiveFail = b.metrics.ConsecutiveFail + fs.length := by
  intro fs
  induction fs with
  | nil => intro b hs htrip _ _ _; exact ⟨hs, htrip, rfl, rfl⟩
  | cons c cs ih =>
    intro b hs htrip hw hf hlt
    rw [inWindow_cons] at hw
    simp only [List.length_cons] at hlt ⊢
    obtain ⟨h1, h2, h3, h4⟩ := (consec_fail b c.1 c.2 T hT hs htrip hw.1
      (hf c (List.mem_cons_self _ _)) (by omega)).2 (by omega)
    obtain ⟨g1, g2, g3, g4⟩ := ih (b.Call c.1 c.2).1 h1 (h2.trans htrip)
      (by rw [inWindow_congr b _ cs h3]; exact hw.2)
      (fun x hx => hf x (List.mem_cons_of_mem _ hx)) (by rw [h4]; omega)
    simp only [calls]
    exact ⟨g1, g2, g3.trans h3, by rw [g4, h4]; omega⟩

/-- C15.  A closed breaker at the start of a window (`ConsecutiveFail = 0`)
with the consecutive-failure strategy of threshold `T`, `1 <= T`, a `uint64`.
First part: let `cs` be calls made one after the other inside that window
with the breaker closed at every moment, and let a further call fail; then
the breaker is open after it exactly when `T <= trailingFailures cs + 1`, that
is when the failed call and the `T - 1` calls right before it all failed.
Second part: `T - 1` failures, then a success, then `T - 1` more failures,
all inside the window, leave the breaker closed. -/
theorem consecutiveFail_trips_on_streak (b : ServiceBreaker) (T : Nat) (hT1 : 1 ≤ T)
    (hT : T < U64) (hs : b.state = StateClosed)
    (htrip : b.tripStrategyFunc = ConsecutiveFailTripFunc T)
    (hcf : b.metrics.ConsecutiveFail = 0) :
    (∀ (cs : List CallInput) (c : CallInput), inWindow b (cs ++ [c]) = true →
        (∀ n, (calls b (cs.take n)).state = StateClosed) → c.2.success = false →
        ((calls b (cs ++ [c])).state = StateOpen ↔ T ≤ trailingFailures cs + 1)) ∧
      (∀ (fs1 fs2 : List CallInput) (s : CallInput),
        inWindow b (fs1 ++ s :: fs2) = true →
        (∀ x ∈ fs1, x.2.success = false) → s.2.success = true →
        (∀ x ∈ fs2, x.2.success = false) → fs1.length = T - 1 → fs2.length = T - 1 →
        (calls b (fs1 ++ s :: fs2)).state = StateClosed) := by
  constructor
  · intro cs c hw hall hf
    rw [inWindow_append] at hw
    obtain ⟨h1, h2, h3, h4⟩ := calls_consec_closed T hT1 hT b htrip hcf cs hw.1 hall
    have hsp : (calls b cs).state = StateClosed := by
      have := hall cs.length
      rwa [List.take_length] at this
    rw [calls_append, ← h3]
    exact (consec_fail (calls b cs) c.1 c.2 T hT hsp h1 (by rw [h2]; exact hw.2) hf
      (by rw [h3]; exact h4)).1
  · intro fs1 fs2 s hw hf1 hok hf2 hl1 hl2
    rw [inWindow_append_list, inWindow_cons] at hw
    obtain ⟨h1, h2, h3, _⟩ := calls_consec_failures T hT fs1 b hs htrip hw.1 hf1
      (by rw [hcf]; omega)
    obtain ⟨g1, g2, g3, g4⟩ := consec_success (calls b fs1) s.1 s.2 h1
      (by rw [h3]; exact hw.2.1) hok
    rw [calls_append_list]
    simp only [calls]
    exact (calls_consec_failures T hT fs2 _ g1 (g2.trans h2)
      (by rw [inWindow_congr b _ fs2 (g3.trans h3)]; exact hw.2.2) hf2
      (by rw [g4]; omega)).1

/-- Witness of C15, threshold 3.  After two failures, a success and two more
failures the breaker is closed, and a further failure, the third in a row,
opens it; after a failure and a success a further failure does not. -/
theorem consecutiveFail_trips_on_streak_witness :
    ((calls consecBreaker ([callAt 1 errExec, callAt 2 errExec, callAt 3 okExec,
          callAt 4 errExec, callAt 5 errExec] ++ [callAt 6 errExec])).state = StateOpen ↔
        3 ≤ trailingFailures [callAt 1 errExec, callAt 2 errExec, callAt 3 okExec,
          callAt 4 errExec, callAt 5 errExec] + 1) ∧
      ((calls consecBreaker ([callAt 1 errExec, callAt 2 okExec] ++ [callAt 3 errExec])).state
          = StateOpen ↔
        3 ≤ trailingFailures [callAt 1 errExec, callAt 2 okExec] + 1) ∧
      (calls consecBreaker ([callAt 1 errExec, callAt 2 errExec] ++
        callAt 3 okExec :: [callAt 4 errExec, callAt 5 errExec])).state = StateClosed ∧
      trailingFailures [callAt 1 errExec, callAt 2 errExec, callAt 3 okExec,
        callAt 4 errExec, callAt 5 errExec] = 2 ∧
      trailingFailures [callAt 1 errExec, callAt 2 okExec] = 0 :=
  ⟨(consecutiveFail_trips_on_streak consecBreaker 3 (by decide) (by decide) rfl rfl rfl).1
      [callAt 1 errExec, callAt 2 errExec, callAt 3 okExec, callAt 4 errExec, callAt 5 errExec]
      (callAt 6 errExec) (by decide)
      (fun n => by
        rcases n with _ | _ | _ | _ | _ | _ | n
        all_goals first | decide | exact (by decide : (calls consecBreaker
          [callAt 1 errExec, callAt 2 errExec, callAt 3 okExec, callAt 4 errExec,
            callAt 5 errExec]).state = StateClosed))
      rfl,
    (consecutiveFail_trips_on_streak consecBreaker 3 (by decide) (by decide) rfl rfl rfl).1
      [callAt 1 errExec, callAt 2 okExec] (callAt 3 errExec) (by decide)
      (fun n => by
        rcases n with _ | _ | _ | n
        all_goals first | decide | exact (by decide : (calls consecBreaker
          [callAt 1 errExec, callAt 2 okExec]).state = StateClosed))
      rfl,
    (consecutiveFail_trips_on_streak consecBreaker 3 (by decide) (by decide) rfl rfl rfl).2
      [callAt 1 errExec, callAt 2 errExec] [callAt 4 errExec, callAt 5 errExec]
      (callAt 3 okExec) (by decide) (by decide) rfl (by decide) rfl rfl,
    by decide, by decide⟩

/-! ### The counters of a window -/

theorem countBound_of_zero (m : Metrics) (n : Nat) (h1 : m.CountAll = 0)
    (h2 : m.CountSuccess = 0) (h3 : m.CountFail = 0) (h4 : m.ConsecutiveSuccess = 0) :
    CountBound m n := by
  refine ⟨⟨?_, Or.inl h4⟩, ?_⟩
  · rw [h1, h2, h3]
    rfl
  · rw [h2, h3]
    exact Nat.zero_le _

theorem countBound_mono (m : Metrics) (n k : Nat) (h : CountBound m n) (hk : n ≤ k) :
    CountBound m k :=
  ⟨h.1, le_trans h.2 hk⟩

theorem inc64_le (x : Nat) : inc64 x ≤ x + 1 := Nat.mod_le _ _

theorem inc64_add_mod (a x y : Nat) (h : a = (x + y) % U64) :
    inc64 a = (inc64 x + y) % U64 ∧ inc64 a = (x + inc64 y) % U64 := by
  subst h
  unfold inc64 U64
  constructor <;> omega

/-- An attempt that is counted and accounted as a success. -/
theorem countBound_success (m : Metrics) (n : Nat) (h : CountBound m n) :
    CountBound m.OnCall.OnSuccess (n + 1) := by
  obtain ⟨⟨h1, _⟩, h3⟩ := h
  refine ⟨⟨?_, Or.inr rfl⟩, ?_⟩
  · exact (inc64_add_mod _ _ _ h1).1
  · have := inc64_le m.CountSuccess
    simp only [Metrics.OnSuccess, Metrics.OnCall]
    omega

/-- An attempt that is counted and accounted as a failure. -/
theorem countBound_fail (m : Metrics) (n : Nat) (h : CountBound m n) :
    CountBound m.OnCall.OnFail (n + 1) := by
  obtain ⟨⟨h1, _⟩, h3⟩ := h
  refine ⟨⟨?_, Or.inl rfl⟩, ?_⟩
  · exact (inc64_add_mod _ _ _ h1).2
  · have := inc64_le m.CountFail
    simp only [Metrics.OnFail, Metrics.OnCall]
    omega

theorem nextWindow_countBound (b : ServiceBreaker) (now : Time) (n : Nat) :
    CountBound (b.nextWindow now).metrics n := by
  obtain ⟨_, h1, h2, h3, h4, _⟩ := nextWindow_counters b now
  exact countBound_of_zero _ n h1 h2 h3 h4

theorem changeState_countBound (b : ServiceBreaker) (s : State) (now clock : Time) (n : Nat)
    (h : CountBound b.metrics n) : CountBound (b.changeState s now clock).metrics n := by
  by_cases hs : b.state = s
  · rw [changeState_same b s now clock hs]
    exact h
  · obtain ⟨_, h1, h2, h3, h4, _⟩ := changeState_counters b s now clock hs
    exact countBound_of_zero _ n h1 h2 h3 h4

theorem beforeCall_countBound (b : ServiceBreaker) (now clock : Time) (n : Nat)
    (h : CountBound b.metrics n) : CountBound (b.beforeCall now clock).1.metrics n := by
  unfold beforeCall
  cases hs : b.state <;> simp only [] <;> split_ifs <;>
    first
      | exact h
      | exact nextWindow_countBound _ _ _
      | exact changeState_countBound _ _ _ _ _ h

theorem afterCall_countBound (b : ServiceBreaker) (success : Bool) (now clock : Time)
    (n : Nat) (h : CountBound b.metrics n) :
    CountBound (b.invoke.afterCall success now clock).metrics (n + 1) := by
  cases success
  · have hf : CountBound b.invoke.metrics.OnFail (n + 1) := countBound_fail _ _ h
    cases hs : b.state
    · rw [afterCall_false_closed _ now clock (by simpa using hs)]
      split_ifs
      · exact changeState_countBound _ _ _ _ _ hf
      · exact hf
    · rw [afterCall_false_open _ now clock (by simpa using hs)]
      exact hf
    · rw [afterCall_false_halfOpen _ now clock (by simpa using hs)]
      exact changeState_countBound _ _ _ _ _ hf
  · have hf : CountBound b.invoke.metrics.OnSuccess (n + 1) := countBound_success _ _ h
    rw [afterCall_true]
    split_ifs
    · exact changeState_countBound _ _ _ _ _ hf
    · exact hf

/-- Every public operation keeps the relations between the counters. -/
theorem step_countBound (b : ServiceBreaker) (op : Op) (n : Nat)
    (h : CountBound b.metrics n) : CountBound (step b op).metrics (n + 1) := by
  cases op with
  | openBreaker now clock =>
    simp only [step, OpenBreaker]
    split_ifs
    · exact countBound_mono _ _ _ h (Nat.le_succ _)
    · exact countBound_mono _ _ _ (changeState_countBound _ _ _ _ _ h) (Nat.le_succ _)
  | closeBreaker now clock =>
    simp only [step, CloseBreaker]
    split_ifs
    · exact countBound_mono _ _ _ h (Nat.le_succ _)
    · exact countBound_mono _ _ _ (changeState_countBound _ _ _ _ _ h) (Nat.le_succ _)
  | call ts exec =>
    cases hadm : (b.beforeCall ts.tBefore ts.tBeforeCS).2 with
    | some e =>
      rw [step, Call_rejected b ts exec e hadm]
      exact countBound_mono _ _ _ h (Nat.le_succ _)
    | none =>
      rw [step, Call_admitted b ts exec hadm]
      exact afterCall_countBound _ _ _ _ _ (beforeCall_countBound b _ _ n h)

theorem run_countBound :
    ∀ (ops : List Op) (b : ServiceBreaker) (n : Nat), CountBound b.metrics n →
      CountBound (run b ops).metrics (n + ops.length) := by
  intro ops
  induction ops with
  | nil => intro b n h; exact h
  | cons op ops ih =>
    intro b n h
    have := ih _ _ (step_countBound b op n h)
    simp only [List.length_cons]
    rw [Nat.add_comm ops.length 1, ← Nat.add_assoc]
    exact this

theorem NewServiceBreaker_countBound (op : BreakerOption) (now : Time) (b0 : ServiceBreaker)
    (h : NewServiceBreaker op now = .ok b0) : CountBound b0.metrics 0 := by
  unfold NewServiceBreaker at h
  split_ifs at h with hc
  injection h with h
  subst h
  exact nextWindow_countBound _ _ _

/-- C16.  After any sequence of completed public operations on a breaker built
by `NewServiceBreaker` (calls whose operation succeeds, fails or panics,
rejected calls, `OpenBreaker`, `CloseBreaker`): `CountAll` equals
`CountSuccess + CountFail` computed as a `uint64` sum, `ConsecutiveSuccess`
and `ConsecutiveFail` are not both non-zero, and as long as fewer than `2^64`
operations were made the sum does not wrap, so that `CountAll` is the exact
sum. -/
theorem counters_consistent (op : BreakerOption) (now : Time) (b0 : ServiceBreaker)
    (ops : List Op) (hnew : NewServiceBreaker op now = .ok b0) :
    (run b0 ops).metrics.CountAll
        = ((run b0 ops).metrics.CountSuccess + (run b0 ops).metrics.CountFail) % U64 ∧
      ((run b0 ops).metrics.ConsecutiveSuccess = 0 ∨
        (run b0 ops).metrics.ConsecutiveFail = 0) ∧
      (ops.length < U64 →
        (run b0 ops).metrics.CountAll
          = (run b0 ops).metrics.CountSuccess + (run b0 ops).metrics.CountFail) := by
  have h := run_countBound ops b0 0 (NewServiceBreaker_countBound op now b0 hnew)
  obtain ⟨⟨h1, h2⟩, h3⟩ := h
  refine ⟨h1, h2, fun hlen => ?_⟩
  rw [h1]
  exact Nat.mod_eq_of_lt (by omega)

/-- Witness of C16: the test breaker after `mixedOps`. -/
theorem counters_consistent_witness :
    ((run (initBreaker 0) mixedOps).metrics.CountAll
        = ((run (initBreaker 0) mixedOps).metrics.CountSuccess
            + (run (initBreaker 0) mixedOps).metrics.CountFail) % U64 ∧
      ((run (initBreaker 0) mixedOps).metrics.ConsecutiveSuccess = 0 ∨
        (run (initBreaker 0) mixedOps).metrics.ConsecutiveFail = 0) ∧
      (mixedOps.length < U64 →
        (run (initBreaker 0) mixedOps).metrics.CountAll
          = (run (initBreaker 0) mixedOps).metrics.CountSuccess
            + (run (initBreaker 0) mixedOps).metrics.CountFail)) ∧
      (run (initBreaker 0) mixedOps).metrics.CountAll = 1 ∧
      (run (initBreaker 0) mixedOps).metrics.CountFail = 1 :=
  ⟨counters_consistent initOption 0 (initBreaker 0) mixedOps (initBreaker_eq 0),
    by decide, by decide⟩

/-! ### Window rotation and state changes -/

theorem beforeCall_windowInterval (b : ServiceBreaker) (now clock : Time) :
    (b.beforeCall now clock).1.windowInterval = b.windowInterval := by
  unfold beforeCall
  cases hs : b.state <;> simp only [] <;> split_ifs <;>
    first
      | rfl
      | exact (changeState_frame _ _ _ _).2.2.1
      | exact (nextWindow_frame _ _).2.2.1

theorem afterCall_windowInterval (b : ServiceBreaker) (success : Bool) (now clock : Time) :
    (b.afterCall success now clock).windowInterval = b.windowInterval := by
  cases success
  · cases hs : b.state
    · rw [afterCall_false_closed b now clock hs]
      split_ifs
      · exact (changeState_frame _ _ _ _).2.2.1
      · rfl
    · rw [afterCall_false_open b now clock hs]
    · rw [afterCall_false_halfOpen b now clock hs]
      exact (changeState_frame _ _ _ _).2.2.1
  · rw [afterCall_true]
    split_ifs
    · exact (changeState_frame _ _ _ _).2.2.1
    · rfl

theorem step_windowInterval (b : ServiceBreaker) (op : Op) :
    (step b op).windowInterval = b.windowInterval := by
  cases op with
  | openBreaker now clock =>
    simp only [step, OpenBreaker]
    split_ifs
    · rfl
    · exact (changeState_frame _ _ _ _).2.2.1
  | closeBreaker now clock =>
    simp only [step, CloseBreaker]
    split_ifs
    · rfl
    · exact (changeState_frame _ _ _ _).2.2.1
  | call ts exec =>
    cases hadm : (b.beforeCall ts.tBefore ts.tBeforeCS).2 with
    | some e => rw [step, Call_rejected b ts exec e hadm]
    | none =>
      rw [step, Call_admitted b ts exec hadm, afterCall_windowInterval]
      exact beforeCall_windowInterval b _ _

theorem run_windowInterval :
    ∀ (ops : List Op) (b : ServiceBreaker), (run b ops).windowInterval = b.windowInterval := by
  intro ops
  induction ops with
  | nil => intro b; rfl
  | cons op ops ih => intro b; exact (ih _).trans (step_windowInterval b op)

/-- Every breaker of a sequential execution has a positive `windowInterval`:
the constructor rejects the others. -/
theorem reachable_windowInterval (b : ServiceBreaker) (h : Reachable b) :
    0 < b.windowInterval := by
  obtain ⟨op, now, b0, ops, hnew, hrun⟩ := h
  subst hrun
  rw [run_windowInterval]
  unfold NewServiceBreaker at hnew
  split_ifs at hnew with hc
  injection hnew with hnew
  subst hnew
  rw [(nextWindow_frame _ _).2.2.1]
  exact not_le.mp (fun hle => hc (Or.inl hle))

/-- C18.  One admission check on a closed breaker of a sequential execution.
When the window expiry is set and has passed at `now`, the check admits the
call after one `nextWindow`: `WindowBatch` gets one `uint64` increment (so it
grows by exactly 1 unless it was `2^64 - 1`), the five counters are zero when
the check returns, before the call is counted, and the new expiry is
`now + windowInterval`, which does not depend on how long ago the old expiry
passed.  When the expiry is not set or has not passed, the check admits the
call and leaves the breaker, with `WindowBatch`, the expiry and the counters,
as it was. -/
theorem closed_check_rotates_once (b : ServiceBreaker) (now clock : Time)
    (hr : Reachable b) (hs : b.state = StateClosed) :
    (b.metrics.WindowTimeStart ≠ 0 ∧ b.metrics.WindowTimeStart < now →
        (b.beforeCall now clock).2 = none ∧
        (b.beforeCall now clock).1.state = StateClosed ∧
        (b.beforeCall now clock).1.metrics.WindowBatch = inc64 b.metrics.WindowBatch ∧
        (b.metrics.WindowBatch + 1 < U64 →
          (b.beforeCall now clock).1.metrics.WindowBatch = b.metrics.WindowBatch + 1) ∧
        (b.beforeCall now clock).1.metrics.CountAll = 0 ∧
        (b.beforeCall now clock).1.metrics.CountSuccess = 0 ∧
        (b.beforeCall now clock).1.metrics.CountFail = 0 ∧
        (b.beforeCall now clock).1.metrics.ConsecutiveSuccess = 0 ∧
        (b.beforeCall now clock).1.metrics.ConsecutiveFail = 0 ∧
        (b.beforeCall now clock).1.metrics.WindowTimeStart = now + b.windowInterval) ∧
      (¬ (b.metrics.WindowTimeStart ≠ 0 ∧ b.metrics.WindowTimeStart < now) →
        b.beforeCall now clock = (b, none)) := by
  constructor
  · intro hexp
    have hb : b.beforeCall now clock = (b.nextWindow now, none) := by
      unfold beforeCall
      simp only [hs]
      rw [if_pos hexp]
    rw [hb]
    obtain ⟨h0, h1, h2, h3, h4, h5⟩ := nextWindow_counters b now
    refine ⟨rfl, by rw [(nextWindow_frame _ _).1]; exact hs, h0,
      fun hlt => h0.trans (inc64_of_lt _ hlt), h1, h2, h3, h4, h5, ?_⟩
    unfold nextWindow
    simp only [hs]
    rw [if_neg (ne_of_gt (reachable_windowInterval b hr))]
  · intro hno
    exact beforeCall_closed b now clock hs hno

/-- Witness of C18: the test breaker, built at time 0 with a window of five
seconds, checked after one minute (twelve intervals) and after three
seconds. -/
theorem closed_check_rotates_once_witness :
    ((initBreaker 0).metrics.WindowBatch = 1 ∧
      ((initBreaker 0).beforeCall (60 * second) 0).1.metrics.WindowBatch = 1 + 1 ∧
      ((initBreaker 0).beforeCall (60 * second) 0).1.metrics.WindowTimeStart
        = 60 * second + (initBreaker 0).windowInterval) ∧
      (initBreaker 0).beforeCall (3 * second) 0 = (initBreaker 0, none) :=
  ⟨⟨rfl,
      ((closed_check_rotates_once (initBreaker 0) (60 * second) 0
        ⟨initOption, 0, initBreaker 0, [], rfl, rfl⟩ rfl).1 (by decide)).2.2.2.1 (by decide),
      ((closed_check_rotates_once (initBreaker 0) (60 * second) 0
        ⟨initOption, 0, initBreaker 0, [], rfl, rfl⟩ rfl).1 (by decide)).2.2.2.2.2.2.2.2.2⟩,
    (closed_check_rotates_once (initBreaker 0) (3 * second) 0
      ⟨initOption, 0, initBreaker 0, [], rfl, rfl⟩ rfl).2 (by decide)⟩

theorem changeState_openTime_other (b : ServiceBreaker) (s : State) (now clock : Time)
    (h : s ≠ StateOpen) : (b.changeState s now clock).stateOpenTime = b.stateOpenTime := by
  unfold changeState
  by_cases hs : b.state = s
  · rw [if_pos hs]
  · simp only [if_neg hs, if_neg h]
    have hf := (nextWindow_frame { b with state := s } clock).2.2.2.2.2.2.2.1
    split_ifs <;> simpa using hf

theorem hooksDistinct_append_exec (tr : List Event) (h : HooksDistinct tr) :
    HooksDistinct (tr ++ [Event.exec]) := by
  intro n p s hmem
  rw [List.mem_append] at hmem
  rcases hmem with hmem | hmem
  · exact h n p s hmem
  · simp at hmem

theorem changeState_hooks (b : ServiceBreaker) (s : State) (now clock : Time)
    (h : HooksDistinct b.trace) : HooksDistinct (b.changeState s now clock).trace := by
  rw [changeState_trace]
  split_ifs with h1 h2
  · exact h
  · intro n p q hmem
    rw [List.mem_append] at hmem
    rcases hmem with hmem | hmem
    · exact h n p q hmem
    · simp only [List.mem_singleton, Event.hook.injEq] at hmem
      obtain ⟨_, hp, hq⟩ := hmem
      subst hp hq
      exact h1
  · exact h

theorem beforeCall_hooks (b : ServiceBreaker) (now clock : Time)
    (h : HooksDistinct b.trace) : HooksDistinct (b.beforeCall now clock).1.trace := by
  unfold beforeCall
  cases hs : b.state <;> simp only [] <;> split_ifs <;>
    first
      | exact h
      | exact changeState_hooks _ _ _ _ h
      | (rw [(nextWindow_frame _ _).2.2.2.2.2.2.2.2]; exact h)

theorem afterCall_hooks (b : ServiceBreaker) (success : Bool) (now clock : Time)
    (h : HooksDistinct b.trace) : HooksDistinct (b.afterCall success now clock).trace := by
  cases success
  · cases hs : b.state
    · rw [afterCall_false_closed b now clock hs]
      split_ifs
      · exact changeState_hooks _ _ _ _ h
      · exact h
    · rw [afterCall_false_open b now clock hs]
      exact h
    · rw [afterCall_false_halfOpen b now clock hs]
      exact changeState_hooks _ _ _ _ h
  · rw [afterCall_true]
    split_ifs
    · exact changeState_hooks _ _ _ _ h
    · exact h

theorem step_hooks (b : ServiceBreaker) (op : Op) (h : HooksDistinct b.trace) :
    HooksDistinct (step b op).trace := by
  cases op with
  | openBreaker now clock =>
    simp only [step, OpenBreaker]
    split_ifs
    · exact h
    · exact changeState_hooks _ _ _ _ h
  | closeBreaker now clock =>
    simp only [step, CloseBreaker]
    split_ifs
    · exact h
    · exact changeState_hooks _ _ _ _ h
  | call ts exec =>
    cases hadm : (b.beforeCall ts.tBefore ts.tBeforeCS).2 with
    | some e =>
      rw [step, Call_rejected b ts exec e hadm]
      exact h
    | none =>
      rw [step, Call_admitted b ts exec hadm]
      exact afterCall_hooks _ _ _ _
        (hooksDistinct_append_exec _ (beforeCall_hooks b _ _ h))

theorem reachable_hooks (b : ServiceBreaker) (h : Reachable b) : HooksDistinct b.trace := by
  obtain ⟨op, now, b0, ops, hnew, hrun⟩ := h
  subst hrun
  have h0 : HooksDistinct b0.trace := by
    unfold NewServiceBreaker at hnew
    split_ifs at hnew with hc
    injection hnew with hnew
    subst hnew
    rw [(nextWindow_frame _ _).2.2.2.2.2.2.2.2]
    intro n p s hmem
    simp at hmem
  clear hnew
  induction ops generalizing b0 with
  | nil => exact h0
  | cons x xs ih => exact ih _ (step_hooks b0 x h0)

/-- C19.  The effect of `changeState s now`.  On a breaker whose state is `s`
already it changes nothing, the trace included, so the hook is not called.
On a breaker in a state `p` different from `s`: the state becomes `s`,
`WindowBatch` gets one `uint64` increment (it grows by exactly 1 unless it
was `2^64 - 1`), the five counters become zero, `stateOpenTime` becomes `now`
when `s` is `StateOpen` and is unchanged otherwise, and the trace gets
exactly one new entry, the call of the hook with `(name, p, s)`, when a hook
is configured, and none when it is not.  Hence a trace whose hook calls have
different `fromState` and `toState` keeps that property, and so has every
breaker of a sequential execution. -/
theorem changeState_effect (b : ServiceBreaker) (s : State) (now clock : Time) :
    (b.state = s → b.changeState s now clock = b) ∧
      (b.state ≠ s →
        (b.changeState s now clock).state = s ∧
        (b.changeState s now clock).metrics.WindowBatch = inc64 b.metrics.WindowBatch ∧
        (b.metrics.WindowBatch + 1 < U64 →
          (b.changeState s now clock).metrics.WindowBatch = b.metrics.WindowBatch + 1) ∧
        (b.changeState s now clock).metrics.CountAll = 0 ∧
        (b.changeState s now clock).metrics.CountSuccess = 0 ∧
        (b.changeState s now clock).metrics.CountFail = 0 ∧
        (b.changeState s now clock).metrics.ConsecutiveSuccess = 0 ∧
        (b.changeState s now clock).metrics.ConsecutiveFail = 0 ∧
        (s = StateOpen → (b.changeState s now clock).stateOpenTime = now) ∧
        (s ≠ StateOpen → (b.changeState s now clock).stateOpenTime = b.stateOpenTime) ∧
        (b.stateChangeHook = true →
          (b.changeState s now clock).trace = b.trace ++ [Event.hook b.name b.state s]) ∧
        (b.stateChangeHook = false → (b.changeState s now clock).trace = b.trace)) ∧
      (HooksDistinct b.trace → HooksDistinct (b.changeState s now clock).trace) ∧
      (Reachable b → HooksDistinct b.trace) := by
  refine ⟨changeState_same b s now clock, fun hne => ?_, changeState_hooks b s now clock,
    reachable_hooks b⟩
  obtain ⟨h0, h1, h2, h3, h4, h5⟩ := changeState_counters b s now clock hne
  have ht := changeState_trace b s now clock
  rw [if_neg hne] at ht
  refine ⟨(changeState_frame b s now clock).1, h0, fun hlt => h0.trans (inc64_of_lt _ hlt),
    h1, h2, h3, h4, h5, ?_, changeState_openTime_other b s now clock, ?_, ?_⟩
  · intro hs
    subst hs
    exact changeState_openTime b now clock hne
  · intro hh
    rw [ht, if_pos hh]
  · intro hh
    rw [ht, if_neg (by simp [hh])]

/-- Witness of C19: the test breaker, whose hook is set, is changed to the
state it has and to `StateOpen`. -/
theorem changeState_effect_witness :
    (initBreaker 0).changeState StateClosed 5 6 = initBreaker 0 ∧
      ((initBreaker 0).changeState StateOpen 5 6).state = StateOpen ∧
      ((initBreaker 0).changeState StateOpen 5 6).metrics.WindowBatch = 1 + 1 ∧
      ((initBreaker 0).changeState StateOpen 5 6).stateOpenTime = 5 ∧
      ((initBreaker 0).changeState StateOpen 5 6).trace
        = (initBreaker 0).trace
            ++ [Event.hook (initBreaker 0).name (initBreaker 0).state StateOpen] ∧
      HooksDistinct (run (initBreaker 0) mixedOps).trace :=
  ⟨(changeState_effect (initBreaker 0) StateClosed 5 6).1 rfl,
    ((changeState_effect (initBreaker 0) StateOpen 5 6).2.1 (by decide)).1,
    ((changeState_effect (initBreaker 0) StateOpen 5 6).2.1 (by decide)).2.2.1 (by decide),
    ((changeState_effect (initBreaker 0) StateOpen 5 6).2.1 (by decide)).2.2.2.2.2.2.2.2.1 rfl,
    ((changeState_effect (initBreaker 0) StateOpen 5 6).2.1
      (by decide)).2.2.2.2.2.2.2.2.2.2.1 rfl,
    (changeState_effect (run (initBreaker 0) mixedOps) StateOpen 5 6).2.2.2
      ⟨initOption, 0, initBreaker 0, mixedOps, rfl, rfl⟩⟩

/-! ### Concurrent callers -/

/-- The three atomic steps of a caller that runs alone are `Call`. -/
theorem interleave_alone (b : ServiceBreaker) (caller : Nat) (ts : CallTimes)
    (exec : Outcome) :
    (interleave ⟨b, [], []⟩
      [Atomic.admission caller ts.tBefore ts.tBeforeCS, Atomic.attempt caller,
        Atomic.accounting caller exec ts.tAfter ts.tAfterCS]).breaker = (b.Call ts exec).1 := by
  unfold Call
  rcases hb : b.beforeCall ts.tBefore ts.tBeforeCS with ⟨b1, r⟩
  cases r with
  | none => simp [interleave, atomicStep, hb]
  | some e => simp [interleave, atomicStep, hb]

/-- C17 fails on the code.  With `halfMaxCalls = 3`, four concurrent callers
reach the open test breaker after its timeout and their admission checks run
before any attempt is counted: `CountAll` is still zero at each check, all
four are admitted, and the trace shows four invocations of the wrapped
operation after the change to half-open, with the breaker still half-open. -/
theorem concurrent_callers_exceed_budget :
    openedBreaker.halfMaxCalls = 3 ∧
      (interleave ⟨openedBreaker, [], []⟩ raceSchedule).breaker.state = StateHalfOpen ∧
      (interleave ⟨openedBreaker, [], []⟩ raceSchedule).breaker.trace
        = [Event.hook "breaker1" StateClosed StateOpen,
            Event.hook "breaker1" StateOpen StateHalfOpen,
            Event.exec, Event.exec, Event.exec, Event.exec] ∧
      (interleave ⟨openedBreaker, [], []⟩ raceSchedule).running = [4, 3, 2, 1] ∧
      (interleave ⟨openedBreaker, [], []⟩ raceSchedule).breaker.metrics.CountAll = 4 := by
  decide

end service_breaker
